import Mathlib

/-!
# sceadan stand-alone driver: `process_file` (src/src/main.c)

A shallow embedding of the per-file driver of the sceadan command line tool.
`process_file` is modelled as a function from the option globals, the path, the
file contents and the session (generator state and classifier accumulator) to
the sequence of external calls it makes, in program order, together with the
session it leaves behind.

Collaborators that are not part of the repository are taken as parameters
(`Env`): the libc generator behind `srandom()`/`random()`, the signedness of
the C type `char`, and the type code computed by `sceadan_classify`.

In `process_file` I/O is modelled on its success path: `open`, `malloc` and `read`
succeed, `read` on a regular file returns `min(block_size, remaining)` bytes and
`0` at end of stream, and `lseek` past the end leaves nothing to read.
`process_file_sys` is the same function with its failure paths (`open`, `malloc`,
`lseek`, `read`), and agrees with `process_file` when no call fails.

`do_output` is embedded at the level of the bytes printed, `type_for_name` and
`alldigits` as functions on the bytes of the argument, and the part of `main` that
follows option parsing as the list of actions it takes (`main_after_options`).
-/

namespace Sceadan

/-- External calls and observation points of `process_file`, in program order. -/
inductive Event where
  /-- Call `srandom(seed)`; the argument is the `unsigned int` actually passed. -/
  | srandom (seed : Nat)
  /-- Call `random()`, with the value it returned. -/
  | random (value : Nat)
  /-- Call `sceadan_dump_json_on_classify(s,opt_json,stdout)`. -/
  | dump_json (cls : Int)
  /-- Call `sceadan_dump_nodes_on_classify(s,opt_train,stdout)`. -/
  | dump_nodes (cls : Int)
  /-- Call `lseek(fd,pos,SEEK_SET)`. -/
  | lseek (pos : Nat)
  /-- Call `read(fd,buf,block_size)`, with the count `rd` it returned. -/
  | read (rd : Nat)
  /-- Call `sceadan_update(s,buf,rd)`, with the `rd` bytes passed. -/
  | update (buf : List Nat)
  /-- The boundary condition of line 153 held; `draw` is the value of the
  `random()` call of line 156 and `process_block` the decision computed from it. -/
  | boundary (draw : Nat) (process_block : Bool)
  /-- Call `sceadan_classify(s)`: the bytes accumulated in the handle at the call
  and the type code returned. -/
  | classify (acc : List Nat) (t : Int)
  /-- Call `do_output(s,path,start,t)`. -/
  | output (path : List Nat) (offset : Nat) (file_type : Int)
  /-- The `-P` line written to stderr: the two numbers printed. -/
  | preport (first last : Nat)
  /-- Call `sceadan_clear(s)`. -/
  | clear
  deriving DecidableEq

/-- Collaborators outside the repository, taken as parameters. `σ` is the state
of the libc generator. -/
structure Env (σ : Type) where
  /-- State of the generator after `srandom(seed)`. -/
  srandom : Nat → σ
  /-- One `random()` call: the non-negative value returned and the next state. -/
  random : σ → Nat × σ
  /-- Whether plain `char` is a signed type on the platform. -/
  char_signed : Bool
  /-- Type code `sceadan_classify` returns for the accumulated bytes. -/
  classify : List Nat → Int

/-- The option globals of main.c that `process_file` reads. -/
structure Options where
  block_size : Nat := 512
  opt_json : Int := 0
  opt_train : Int := 0
  opt_omit : Bool := false
  opt_blocks : Bool := false
  opt_preport : Bool := false
  opt_percentage : Int := 100
  opt_seed : Int := 0

/-- The state shared by successive `process_file` calls: the generator and the
bytes accumulated in the classifier handle `s` since it was last emptied. -/
structure Session (σ : Type) where
  rng : σ
  acc : List Nat

/-- What one `process_file` call did: the calls made, the session left behind
and the final value of the local `offset`. -/
structure Run (σ : Type) where
  trace : List Event
  rng : σ
  acc : List Nat
  offset : Nat

/-- The `typeflag` value of a regular file, from `<ftw.h>`. -/
def FTW_F : Nat := 0

/-- Unsigned 64-bit wrap-around of `uint64_t` arithmetic. -/
def wrap64 (n : Nat) : Nat := n % 2 ^ 64

/-- Value of `path[i]` after promotion to `int`, for the byte `b` stored there. -/
def char_value (char_signed : Bool) (b : Nat) : Int :=
  if char_signed && decide (128 ≤ b) then (b : Int) - 256 else (b : Int)

/-- The inner loop of lines 108-110: `n` calls of `random()`. -/
def exercise {σ : Type} (E : Env σ) : Nat → σ → List Event × σ
  | 0, g => ([], g)
  | n + 1, g =>
    let r := exercise E n (E.random g).2
    (Event.random (E.random g).1 :: r.1, r.2)

/-- The outer loop of lines 107-111 over the characters of `path`, which stops
at the terminating NUL. -/
def seed_walk {σ : Type} (E : Env σ) : List Nat → σ → List Event × σ
  | [], g => ([], g)
  | c :: cs, g =>
    if c = 0 then ([], g)
    else
      let a := exercise E (char_value E.char_signed c).toNat g
      let b := seed_walk E cs a.2
      (a.1 ++ b.1, b.2)

/-- Lines 105-112: re-seed and exercise the generator unless the percentage is 100. -/
def seed_generator {σ : Type} (E : Env σ) (o : Options) (path : List Nat) (g : σ) :
    List Event × σ :=
  if o.opt_percentage ≠ 100 then
    let seed := (o.opt_seed % 4294967296).toNat
    let w := seed_walk E path (E.srandom seed)
    (Event.srandom seed :: w.1, w.2)
  else ([], g)

/-- Lines 156-162: the sampling decision and, when accepted, the classification
and its reports. Returns the calls made, the generator and the accumulator. -/
def on_boundary {σ : Type} (E : Env σ) (o : Options) (path : List Nat) (training : Bool)
    (offset rd : Nat) (g : σ) (acc : List Nat) : List Event × σ × List Nat :=
  let d := (E.random g).1
  if ((d % 100 : Nat) : Int) < o.opt_percentage then
    let t := E.classify acc
    let start := if o.opt_blocks then offset else 0
    ([Event.random d, Event.boundary d true, Event.classify acc t]
        ++ (if training then [] else [Event.output path start t])
        ++ (if o.opt_preport then [Event.preport offset (wrap64 (offset + rd))] else []),
      (E.random g).2, [])
  else ([Event.random d, Event.boundary d false], (E.random g).2, acc)

/-- Lines 141-163: one iteration of the read loop up to the sampling block, for
the bytes `buf` returned by `read`. -/
def iteration {σ : Type} (E : Env σ) (o : Options) (path : List Nat) (training : Bool)
    (offset : Nat) (buf : List Nat) (g : σ) (acc : List Nat) : List Event × σ × List Nat :=
  let rd := buf.length
  let acc1 := if 0 < rd then acc ++ buf else acc
  let ev1 := Event.read rd :: (if 0 < rd then [Event.update buf] else [])
  if (o.opt_blocks && decide (rd = o.block_size)) || (!o.opt_blocks && decide (rd = 0)) then
    let b := on_boundary E o path training offset rd g acc1
    (ev1 ++ b.1, b.2.1, b.2.2)
  else (ev1, g, acc1)

/-- The `while(true)` loop of lines 140-167. `fd` is the unread remainder of the
file; `fuel` bounds the number of iterations. -/
def read_loop {σ : Type} (E : Env σ) (o : Options) (path : List Nat) (training : Bool) :
    Nat → List Nat → Nat → σ → List Nat → Option (Run σ)
  | 0, _, _, _, _ => none
  | fuel + 1, fd, offset, g, acc =>
    let buf := fd.take o.block_size
    let it := iteration E o path training offset buf g acc
    if buf.length = 0 then some ⟨it.1, it.2.1, it.2.2, offset⟩
    else
      match read_loop E o path training fuel (fd.drop o.block_size)
          (wrap64 (offset + buf.length)) it.2.1 it.2.2 with
      | none => none
      | some r => some ⟨it.1 ++ r.trace, r.rng, r.acc, r.offset⟩

/-- The ftw() callback `process_file` of lines 93-172, for a path whose file holds
the bytes `file`. -/
def process_file {σ : Type} (E : Env σ) (o : Options) (path : List Nat) (typeflag : Nat)
    (file : List Nat) (s : Session σ) : Option (Run σ) :=
  if typeflag ≠ FTW_F then some ⟨[], s.rng, s.acc, 0⟩
  else
    let sd := seed_generator E o path s.rng
    let ev_json := if o.opt_json ≠ 0 then [Event.dump_json o.opt_json] else []
    let ev_train := if o.opt_train ≠ 0 then [Event.dump_nodes o.opt_train] else []
    let training := decide (o.opt_json ≠ 0) || decide (o.opt_train ≠ 0)
    let fd := if o.opt_omit then file.drop o.block_size else file
    let ev_seek := if o.opt_omit then [Event.lseek o.block_size] else []
    let offset := if o.opt_omit then wrap64 (0 + o.block_size) else 0
    match read_loop E o path training (fd.length + 1) fd offset sd.2 s.acc with
    | none => none
    | some r =>
      some ⟨sd.1 ++ ev_json ++ ev_train ++ ev_seek ++ r.trace ++ [Event.clear], r.rng, [], r.offset⟩

/-- A concrete generator for evaluation: the state is a counter, `srandom`
stores the seed and `random` returns the counter and increments it. -/
def counterEnv : Env Nat where
  srandom := fun seed => seed
  random := fun g => (g, g + 1)
  char_signed := true
  classify := fun acc => (acc.length : Int)

/-! ## Observations on a trace -/

/-- Number of bytes an event passes to `sceadan_update`. -/
def Event.update_len : Event → Nat
  | Event.update buf => buf.length
  | _ => 0

/-- Bytes an event passes to `sceadan_update`. -/
def Event.update_bytes : Event → List Nat
  | Event.update buf => buf
  | _ => []

/-- Sum of the byte counts passed to `sceadan_update` over a trace. -/
def update_total (tr : List Event) : Nat := (tr.map Event.update_len).sum

/-- All bytes passed to `sceadan_update` over a trace, in order. -/
def fed_bytes (tr : List Event) : List Nat := (tr.map Event.update_bytes).flatten

/-- Generator state after `n` further `random()` calls. -/
def advance {σ : Type} (E : Env σ) : Nat → σ → σ
  | 0, g => g
  | n + 1, g => advance E n (E.random g).2

/-- The values returned by the next `n` `random()` calls. -/
def draws {σ : Type} (E : Env σ) : Nat → σ → List Nat
  | 0, _ => []
  | n + 1, g => (E.random g).1 :: draws E n (E.random g).2

/-- Number of `random()` calls the loops of lines 107-111 make for `path`: each
character up to the terminating NUL contributes its `char` value when that is
positive and nothing otherwise. -/
def path_draws (char_signed : Bool) : List Nat → Nat
  | [] => 0
  | c :: cs => if c = 0 then 0 else (char_value char_signed c).toNat + path_draws char_signed cs

/-! ## The read loop -/
/-- Offset passed to `do_output`, for an output event. -/
@[simp] def Event.output_offset : Event → Option Nat
  | Event.output _ offset _ => some offset
  | _ => none

/-- Offsets of the Classification Results printed through `do_output`, in order. -/
def output_offsets (tr : List Event) : List Nat := tr.filterMap Event.output_offset

/-- Bytes accumulated in the handle at a `sceadan_classify` call. -/
@[simp] def Event.classify_acc : Event → Option (List Nat)
  | Event.classify acc _ => some acc
  | _ => none

/-- For each `sceadan_classify` call in order, the bytes accumulated at the call. -/
def classified (tr : List Event) : List (List Nat) := tr.filterMap Event.classify_acc

/-- Whether an event is a `sceadan_update` call, a boundary event or a
`sceadan_classify` call. -/
@[simp] def Event.is_call : Event → Bool
  | Event.update _ => true
  | Event.boundary _ _ => true
  | Event.classify _ _ => true
  | _ => false

/-- The `sceadan_update` calls, boundary events and `sceadan_classify` calls of a
trace, in order. -/
def calls (tr : List Event) : List Event := tr.filter Event.is_call

/-- An event with the logical offset advanced by `d`: the offset printed by
`do_output` in block-by-block mode (the whole-file offset is the constant 0) and
both numbers of a `-P` line. -/
@[simp] def Event.shift (blocks : Bool) (d : Nat) : Event → Event
  | Event.output path offset t => Event.output path (if blocks then offset + d else offset) t
  | Event.preport a b => Event.preport (a + d) (b + d)
  | e => e

/-- A run of the read loop with the logical offset advanced by `d`. -/
def Run.shift {σ : Type} (blocks : Bool) (d : Nat) (r : Run σ) : Run σ :=
  ⟨r.trace.map (Event.shift blocks d), r.rng, r.acc, r.offset + d⟩

/-- What the sampling gate of lines 156-157 allows of an event: a boundary event
is accepted iff `draw % 100 < opt_percentage`, and a classification or a result
needs a positive percentage. -/
def sampling_ok (percentage : Int) : Event → Prop
  | Event.boundary d b => (b = true ↔ ((d % 100 : Nat) : Int) < percentage)
  | Event.classify _ _ => 0 < percentage
  | Event.output _ _ _ => 0 < percentage
  | _ => True

/-- Whether an event is a `random()` call. -/
@[simp] def Event.is_random : Event → Bool
  | Event.random _ => true
  | _ => false

/-- Number of `random()` calls in a trace. -/
def random_calls (tr : List Event) : Nat := tr.countP Event.is_random

/-- Whether an event is a `srandom()` call. -/
@[simp] def Event.is_srandom : Event → Bool
  | Event.srandom _ => true
  | _ => false

/-- Number of `srandom()` calls in a trace. -/
def srandom_calls (tr : List Event) : Nat := tr.countP Event.is_srandom

/-- Whether an event is a boundary event. -/
@[simp] def Event.is_boundary : Event → Bool
  | Event.boundary _ _ => true
  | _ => false

/-- Number of boundary events in a trace. -/
def boundary_count (tr : List Event) : Nat := tr.countP Event.is_boundary

/-- The accept/reject decision of a boundary event. -/
@[simp] def Event.decision : Event → Option Bool
  | Event.boundary _ b => some b
  | _ => none

/-- The accept/reject decisions at the boundary events of a trace, in order. -/
def decisions (tr : List Event) : List Bool := tr.filterMap Event.decision

/-- The generator draw of a boundary event. -/
@[simp] def Event.boundary_draw : Event → Option Nat
  | Event.boundary d _ => some d
  | _ => none

/-- The generator draws used at the boundary events of a trace, in order. -/
def boundary_draws (tr : List Event) : List Nat := tr.filterMap Event.boundary_draw

/-- Whether an event is a `read()` call. -/
@[simp] def Event.is_read : Event → Bool
  | Event.read _ => true
  | _ => false

/-- The part of a trace before the first `read()` call. -/
def before_first_read (tr : List Event) : List Event := tr.takeWhile (fun e => !e.is_read)

/-- The decision line 156 computes from a draw. -/
def process_block (percentage : Int) (draw : Nat) : Bool :=
  decide (((draw % 100 : Nat) : Int) < percentage)

/-- What a stretch of the read loop started with generator state `g` does with the
generator: it makes `n` draws, one per boundary event, each deciding that event,
and never re-seeds. -/
def draws_from {σ : Type} (E : Env σ) (percentage : Int) (g : σ) (n : Nat)
    (tr : List Event) (g' : σ) : Prop :=
  boundary_count tr = n ∧ boundary_draws tr = draws E n g ∧ random_calls tr = n ∧
    srandom_calls tr = 0 ∧ g' = advance E n g ∧
    decisions tr = (draws E n g).map (process_block percentage)

/-- Successive `process_file` calls on the one session, as `ftw()` and `main` make
them: each task is a path, its `typeflag` and the contents of its file. Returns,
for each call in order, the session it started from and what it did. -/
def process_files {σ : Type} (E : Env σ) (o : Options) :
    List (List Nat × Nat × List Nat) → Session σ → Option (List (Session σ × Run σ))
  | [], _ => some []
  | (path, typeflag, file) :: rest, s =>
    match process_file E o path typeflag file s with
    | none => none
    | some r =>
      match process_files E o rest ⟨r.rng, r.acc⟩ with
      | none => none
      | some rs => some ((s, r) :: rs)

/-- Count returned by a `read()` call. -/
@[simp] def Event.read_size : Event → Option Nat
  | Event.read rd => some rd
  | _ => none

/-- The counts returned by the `read()` calls of a trace, in order. -/
def read_sizes (tr : List Event) : List Nat := tr.filterMap Event.read_size

/-- The two numbers of a `-P` line. -/
@[simp] def Event.preport_range : Event → Option (Nat × Nat)
  | Event.preport a b => some (a, b)
  | _ => none

/-- The `-P` lines written to stderr, in order: the two numbers of each. -/
def preports (tr : List Event) : List (Nat × Nat) := tr.filterMap Event.preport_range

/-- Lean counterpart of a decimal digit loop: the digits of `n`, most significant
first, as ASCII codes, prepended to `acc`. `fuel` bounds the number of digits. -/
def decimal_aux : Nat → Nat → List Nat → List Nat
  | 0, _, acc => acc
  | fuel + 1, n, acc =>
    if n / 10 = 0 then (48 + n % 10) :: acc
    else decimal_aux fuel (n / 10) ((48 + n % 10) :: acc)

/-- Decimal representation of a natural number, as ASCII codes. -/
def decimal (n : Nat) : List Nat := decimal_aux (n + 1) n []

/-- The `int64_t` that the conversion `PRId64` reads from a `uint64_t` argument. -/
def int64_of_uint64 (u : Nat) : Int :=
  if u % 2 ^ 64 < 2 ^ 63 then ((u % 2 ^ 64 : Nat) : Int) else ((u % 2 ^ 64 : Nat) : Int) - 2 ^ 64

/-- What printf writes for a signed decimal conversion: a minus sign for a negative
value, then the digits of its magnitude. -/
def print_signed (v : Int) : List Nat :=
  if v < 0 then 45 :: decimal v.natAbs else decimal v.natAbs

/-- Left-justification of printf's `-` flag: trailing spaces up to the width. -/
def pad_right (width : Nat) (txt : List Nat) : List Nat :=
  txt ++ List.replicate (width - txt.length) 32

/-- The line `do_output` of lines 82-85 prints, as bytes, for the format
`"%-10" PRId64 " %s # %s\n"`. `name_for_type` is `sceadan_name_for_type` on the
handle, which is not part of the repository. -/
def do_output (name_for_type : Int → List Nat) (path : List Nat) (offset : Nat)
    (file_type : Int) : List Nat :=
  pad_right 10 (print_signed (int64_of_uint64 offset)) ++ [32] ++ name_for_type file_type
    ++ [32, 35, 32] ++ path ++ [10]

/-- The line the claim about `do_output` describes: the decimal representation of
the offset itself, left-justified to width 10, a space, the type name, the marker
and the path. -/
def do_output_spec (name_for_type : Int → List Nat) (path : List Nat) (offset : Nat)
    (file_type : Int) : List Nat :=
  pad_right 10 (decimal offset) ++ [32] ++ name_for_type file_type
    ++ [32, 35, 32] ++ path ++ [10]

/-- Whether an event is a `do_output` call. -/
@[simp] def Event.is_output : Event → Bool
  | Event.output _ _ _ => true
  | _ => false

/-- A run of the read loop with its `do_output` calls left out. -/
def Run.without_output {σ : Type} (r : Run σ) : Run σ :=
  ⟨r.trace.filter (fun e => !e.is_output), r.rng, r.acc, r.offset⟩

/-- Modelled from libc: `isdigit` on a byte. -/
def isdigit (c : Nat) : Bool := decide (48 ≤ c) && decide (c ≤ 57)

/-- The function `alldigits` of lines 181-188: whether every character up to the
terminating NUL is a digit. -/
def alldigits : List Nat → Bool
  | [] => true
  | c :: cs => if c = 0 then true else if isdigit c = false then false else alldigits cs

/-- The value of the leading digits of a string, continuing from `acc`. -/
def atoi_aux (acc : Nat) : List Nat → Nat
  | [] => acc
  | c :: cs => if isdigit c then atoi_aux (acc * 10 + (c - 48)) cs else acc

/-- Conversion of a non-negative `long` to the 32-bit `int`: the low 32 bits, read
as a signed number. -/
def int_of_long (l : Nat) : Int := (((l + 2 ^ 31) % 2 ^ 32 : Nat) : Int) - 2 ^ 31

/-- Modelled from libc: `atoi` on a string that starts with its digits, as
`type_for_name` calls it once `alldigits` holds (no white space or sign to skip).
It is `(int) strtol(str, NULL, 10)`: the value of the digits, held at `LONG_MAX`
= 2^63 - 1 when it is larger, converted to `int`. -/
def atoi (str : List Nat) : Int := int_of_long (min (atoi_aux 0 str) (2 ^ 63 - 1))

/-- The function `type_for_name` of lines 192-201. `lookup` is
`sceadan_type_for_name` on a freshly opened handle, with the `int` it returns;
`none` is the `exit(1)` taken for a name that is not a valid type name. -/
def type_for_name (lookup : List Nat → Int) (name : List Nat) : Option Int :=
  if alldigits name then some (atoi name)
  else if lookup name > 0 then some (lookup name) else none

/-- The calls whose failure `process_file` reports with `perror` before `exit`. -/
inductive Failure where
  | open_failed
  | malloc_failed
  | read_failed
  deriving DecidableEq

/-- How a `process_file` call ends: it returns 0 to `ftw()`, or it ends the whole
process with `exit(status)` after `perror` for `cause`, having made the calls in
`trace`. -/
inductive Outcome (σ : Type) where
  | returned (r : Run σ)
  | exited (status : Int) (cause : Failure) (trace : List Event)

/-- The exit status, when the process was ended. -/
def Outcome.exit_status {σ : Type} : Outcome σ → Option Int
  | Outcome.returned _ => none
  | Outcome.exited status _ _ => some status

/-- The calls made before the call returned or the process was ended. -/
def Outcome.trace {σ : Type} : Outcome σ → List Event
  | Outcome.returned r => r.trace
  | Outcome.exited _ _ trace => trace

/-- How the operating system answers the calls of `process_file`: whether `open`
fails, whether `malloc` fails, whether `lseek` fails and leaves the position where
it was (a pipe), and after how many good reads a `read` returns -1, if ever. -/
structure Sys where
  open_fails : Bool := false
  malloc_fails : Bool := false
  seek_fails : Bool := false
  good_reads : Option Nat := none

/-- The loop of lines 140-167 with a `read` that may return -1 (lines 141-142). -/
def read_loop_sys {σ : Type} (E : Env σ) (o : Options) (path : List Nat) (training : Bool) :
    Nat → Option Nat → List Nat → Nat → σ → List Nat → Option (Outcome σ)
  | 0, _, _, _, _, _ => none
  | fuel + 1, good, fd, offset, g, acc =>
    if good = some 0 then some (Outcome.exited 0 Failure.read_failed [])
    else
      let buf := fd.take o.block_size
      let it := iteration E o path training offset buf g acc
      if buf.length = 0 then some (Outcome.returned ⟨it.1, it.2.1, it.2.2, offset⟩)
      else
        match read_loop_sys E o path training fuel (good.map (fun k => k - 1))
            (fd.drop o.block_size) (wrap64 (offset + buf.length)) it.2.1 it.2.2 with
        | none => none
        | some (Outcome.returned r) =>
          some (Outcome.returned ⟨it.1 ++ r.trace, r.rng, r.acc, r.offset⟩)
        | some (Outcome.exited status cause tr) =>
          some (Outcome.exited status cause (it.1 ++ tr))

/-- The function `process_file` of lines 93-172 with its failure paths: `open`
(not called for the path `-`, standard input), `malloc`, `lseek`, whose result the
code does not look at, and `read`. `file` is what the stream holds. -/
def process_file_sys {σ : Type} (E : Env σ) (o : Options) (sys : Sys) (path : List Nat)
    (typeflag : Nat) (file : List Nat) (s : Session σ) : Option (Outcome σ) :=
  if typeflag ≠ FTW_F then some (Outcome.returned ⟨[], s.rng, s.acc, 0⟩)
  else
    let sd := seed_generator E o path s.rng
    let ev_json := if o.opt_json ≠ 0 then [Event.dump_json o.opt_json] else []
    let ev_train := if o.opt_train ≠ 0 then [Event.dump_nodes o.opt_train] else []
    let training := decide (o.opt_json ≠ 0) || decide (o.opt_train ≠ 0)
    if path ≠ [45] ∧ sys.open_fails = true then
      some (Outcome.exited 0 Failure.open_failed (sd.1 ++ ev_json ++ ev_train))
    else if sys.malloc_fails = true then
      some (Outcome.exited 1 Failure.malloc_failed (sd.1 ++ ev_json ++ ev_train))
    else
      let fd := if o.opt_omit then (if sys.seek_fails then file else file.drop o.block_size)
        else file
      let ev_seek := if o.opt_omit then [Event.lseek o.block_size] else []
      let offset := if o.opt_omit then wrap64 (0 + o.block_size) else 0
      match read_loop_sys E o path training (fd.length + 1) sys.good_reads fd offset sd.2
          s.acc with
      | none => none
      | some (Outcome.returned r) =>
        some (Outcome.returned
          ⟨sd.1 ++ ev_json ++ ev_train ++ ev_seek ++ r.trace ++ [Event.clear], r.rng, [],
            r.offset⟩)
      | some (Outcome.exited status cause tr) =>
        some (Outcome.exited status cause (sd.1 ++ ev_json ++ ev_train ++ ev_seek ++ tr))

/-- Conversion of an `int` to the 64-bit `size_t`, as in `block_size = atoi(optarg)`. -/
def size_t_of_int (n : Int) : Nat := (n % 2 ^ 64).toNat

/-- What `main` does after option parsing, as far as the driver is concerned. -/
inductive MainAction where
  /-- Print `Invalid block size` to stderr (line 295). -/
  | invalid_block_size
  /-- Call `usage()`, which prints the help text and calls `exit(0)`. -/
  | usage
  /-- Open the classifier session (line 299). -/
  | sceadan_open
  /-- Call `sceadan_set_ngram_mode` (line 300). -/
  | sceadan_set_ngram_mode
  /-- Call `sceadan_reduce_feature` and exit with its result (lines 305-306). -/
  | sceadan_reduce_feature
  /-- Call `process_file("-",0,FTW_F)` (line 311). -/
  | process_stdin
  /-- Call `process_dir` on an argument (line 315). -/
  | process_dir (path : List Nat)
  /-- Call `exit(status)`. -/
  | exit_with (status : Int)
  deriving DecidableEq

/-- The globals `main` looks at after the option loop, and the remaining arguments. -/
structure MainState where
  opt_help : Nat := 0
  block_size : Nat := 512
  opt_reduce : Int := 0
  args : List (List Nat) := []

/-- The case `'b'` of the option loop (line 258), for the `int` that `atoi` returned. -/
def option_b (n : Int) (m : MainState) : MainState :=
  { m with block_size := size_t_of_int n }

/-- Lines 289-319 of `main`: what happens once the options are parsed. -/
def main_after_options (m : MainState) : List MainAction :=
  if m.opt_help ≠ 0 then [MainAction.usage]
  else if m.block_size < 1 then [MainAction.invalid_block_size, MainAction.usage]
  else
    [MainAction.sceadan_open, MainAction.sceadan_set_ngram_mode] ++
      (if m.opt_reduce ≠ 0 then [MainAction.sceadan_reduce_feature]
       else if m.args.length < 1 then [MainAction.usage]
       else
         (if m.args.head? = some [45] then [MainAction.process_stdin] else [])
           ++ m.args.map MainAction.process_dir ++ [MainAction.exit_with 0])

/-- Whether a trace never has two `sceadan_classify` calls without a
`sceadan_update` call in between. `pending` says that a classify call has been made
and no update call since. -/
def classify_after_update : Bool → List Event → Bool
  | _, [] => true
  | _, Event.update _ :: tr => classify_after_update false tr
  | pending, Event.classify _ _ :: tr => !pending && classify_after_update true tr
  | pending, _ :: tr => classify_after_update pending tr

/-- Whether, after a trace, a classify call has been made and no update call since. -/
def pending_after : Bool → List Event → Bool
  | pending, [] => pending
  | _, Event.update _ :: tr => pending_after false tr
  | _, Event.classify _ _ :: tr => pending_after true tr
  | pending, _ :: tr => pending_after pending tr

/-- What each `sceadan_classify` call of a trace sees when every classify and every
`sceadan_clear` resets the handle: the bytes fed by `sceadan_update` since the last
reset, on top of `acc` before the first one. -/
def replay_classified : List Nat → List Event → List (List Nat)
  | _, [] => []
  | acc, Event.update buf :: tr => replay_classified (acc ++ buf) tr
  | acc, Event.classify _ _ :: tr => acc :: replay_classified [] tr
  | _, Event.clear :: tr => replay_classified [] tr
  | acc, _ :: tr => replay_classified acc tr

/-- The handle's accumulated bytes after a trace, when every classify and every
`sceadan_clear` resets it. -/
def replay_acc : List Nat → List Event → List Nat
  | acc, [] => acc
  | acc, Event.update buf :: tr => replay_acc (acc ++ buf) tr
  | _, Event.classify _ _ :: tr => replay_acc [] tr
  | _, Event.clear :: tr => replay_acc [] tr
  | acc, _ :: tr => replay_acc acc tr

/-- All calls of a sequence of `process_file` calls, in order. -/
def total_trace {σ : Type} (runs : List (Session σ × Run σ)) : List Event :=
  (runs.map (fun sr => sr.2.trace)).flatten

/-! ## Seeding -/

theorem advance_add {σ : Type} (E : Env σ) (a b : Nat) (g : σ) :
    advance E (a + b) g = advance E b (advance E a g) := by
  induction a generalizing g with
  | zero => simp [advance]
  | succ n ih => rw [Nat.succ_add]; simp only [advance]; exact ih _

theorem draws_add {σ : Type} (E : Env σ) (a b : Nat) (g : σ) :
    draws E (a + b) g = draws E a g ++ draws E b (advance E a g) := by
  induction a generalizing g with
  | zero => simp [draws, advance]
  | succ n ih => rw [Nat.succ_add]; simp only [draws, advance, List.cons_append, ih]

theorem draws_length {σ : Type} (E : Env σ) (n : Nat) (g : σ) : (draws E n g).length = n := by
  induction n generalizing g with
  | zero => rfl
  | succ n ih => simp [draws, ih]

theorem exercise_eq {σ : Type} (E : Env σ) (n : Nat) (g : σ) :
    exercise E n g = ((draws E n g).map Event.random, advance E n g) := by
  induction n generalizing g with
  | zero => rfl
  | succ n ih => simp only [exercise, draws, advance, ih, List.map_cons]

theorem seed_walk_eq {σ : Type} (E : Env σ) (path : List Nat) (g : σ) :
    seed_walk E path g =
      ((draws E (path_draws E.char_signed path) g).map Event.random,
        advance E (path_draws E.char_signed path) g) := by
  induction path generalizing g with
  | nil => rfl
  | cons c cs ih =>
    by_cases hc : c = 0
    · simp [seed_walk, path_draws, hc, draws, advance]
    · simp only [seed_walk, path_draws, hc, if_false, exercise_eq, ih, draws_add, advance_add,
        List.map_append]

theorem seed_generator_eq {σ : Type} (E : Env σ) (o : Options) (path : List Nat) (g : σ)
    (h : o.opt_percentage ≠ 100) :
    seed_generator E o path g =
      (Event.srandom (o.opt_seed % 4294967296).toNat ::
          (draws E (path_draws E.char_signed path)
            (E.srandom (o.opt_seed % 4294967296).toNat)).map Event.random,
        advance E (path_draws E.char_signed path)
          (E.srandom (o.opt_seed % 4294967296).toNat)) := by
  simp only [seed_generator, h, ne_eq, not_false_eq_true, if_true, seed_walk_eq]

theorem seed_generator_eq_100 {σ : Type} (E : Env σ) (o : Options) (path : List Nat) (g : σ)
    (h : o.opt_percentage = 100) : seed_generator E o path g = ([], g) := by
  simp [seed_generator, h]

theorem update_total_map_random (l : List Nat) : update_total (l.map Event.random) = 0 := by
  induction l with
  | nil => rfl
  | cons a l ih =>
    simp only [update_total, List.map_cons, List.sum_cons, Event.update_len] at ih ⊢
    omega

theorem update_total_seed_generator {σ : Type} (E : Env σ) (o : Options) (path : List Nat)
    (g : σ) : update_total (seed_generator E o path g).1 = 0 := by
  by_cases h : o.opt_percentage = 100
  · rw [seed_generator_eq_100 E o path g h]; rfl
  · rw [seed_generator_eq E o path g h]
    have := update_total_map_random (draws E (path_draws E.char_signed path)
      (E.srandom (o.opt_seed % 4294967296).toNat))
    simp only [update_total, List.map_cons, List.sum_cons, Event.update_len] at this ⊢
    omega



theorem update_total_append (a b : List Event) :
    update_total (a ++ b) = update_total a + update_total b := by
  simp [update_total]

theorem on_boundary_accept {σ : Type} (E : Env σ) (o : Options) (path : List Nat)
    (training : Bool) (offset rd : Nat) (g : σ) (acc : List Nat)
    (h : (((E.random g).1 % 100 : Nat) : Int) < o.opt_percentage) :
    on_boundary E o path training offset rd g acc =
      ([Event.random (E.random g).1, Event.boundary (E.random g).1 true,
          Event.classify acc (E.classify acc)]
        ++ (if training then [] else
              [Event.output path (if o.opt_blocks then offset else 0) (E.classify acc)])
        ++ (if o.opt_preport then [Event.preport offset (wrap64 (offset + rd))] else []),
      (E.random g).2, []) := by
  unfold on_boundary
  exact if_pos h

theorem on_boundary_reject {σ : Type} (E : Env σ) (o : Options) (path : List Nat)
    (training : Bool) (offset rd : Nat) (g : σ) (acc : List Nat)
    (h : ¬ (((E.random g).1 % 100 : Nat) : Int) < o.opt_percentage) :
    on_boundary E o path training offset rd g acc =
      ([Event.random (E.random g).1, Event.boundary (E.random g).1 false],
        (E.random g).2, acc) := by
  unfold on_boundary
  exact if_neg h

theorem update_total_on_boundary {σ : Type} (E : Env σ) (o : Options) (path : List Nat)
    (training : Bool) (offset rd : Nat) (g : σ) (acc : List Nat) :
    update_total (on_boundary E o path training offset rd g acc).1 = 0 := by
  by_cases h : (((E.random g).1 % 100 : Nat) : Int) < o.opt_percentage
  · rw [on_boundary_accept E o path training offset rd g acc h]
    cases training <;> cases o.opt_preport <;> simp [update_total, Event.update_len]
  · rw [on_boundary_reject E o path training offset rd g acc h]
    simp [update_total, Event.update_len]

theorem update_total_iteration {σ : Type} (E : Env σ) (o : Options) (path : List Nat)
    (training : Bool) (offset : Nat) (buf : List Nat) (g : σ) (acc : List Nat) :
    update_total (iteration E o path training offset buf g acc).1 = buf.length := by
  have hb := update_total_on_boundary E o path training offset buf.length g
    (if 0 < buf.length then acc ++ buf else acc)
  unfold iteration
  by_cases hc : ((o.opt_blocks && decide (buf.length = o.block_size))
      || (!o.opt_blocks && decide (buf.length = 0))) = true
  · simp only [hc, if_true]
    rw [update_total_append, hb]
    by_cases h0 : 0 < buf.length
    · simp [h0, update_total, Event.update_len]
    · simp [h0, update_total, Event.update_len]; omega
  · simp only [hc]
    by_cases h0 : 0 < buf.length
    · simp [h0, update_total, Event.update_len]
    · simp [h0, update_total, Event.update_len]; omega

/-- Induction principle for the read loop: with more fuel than unread bytes the
loop returns, and a property that holds for the last iteration and is carried
through every earlier one holds of the result. -/
theorem read_loop_induction {σ : Type} (E : Env σ) (o : Options) (path : List Nat)
    (training : Bool) (P : List Nat → Nat → σ → List Nat → Run σ → Prop)
    (hstop : ∀ fd offset g acc, (fd.take o.block_size).length = 0 →
      P fd offset g acc
        ⟨(iteration E o path training offset (fd.take o.block_size) g acc).1,
         (iteration E o path training offset (fd.take o.block_size) g acc).2.1,
         (iteration E o path training offset (fd.take o.block_size) g acc).2.2, offset⟩)
    (hstep : ∀ fd offset g acc r, (fd.take o.block_size).length ≠ 0 →
      P (fd.drop o.block_size) (wrap64 (offset + (fd.take o.block_size).length))
        (iteration E o path training offset (fd.take o.block_size) g acc).2.1
        (iteration E o path training offset (fd.take o.block_size) g acc).2.2 r →
      P fd offset g acc
        ⟨(iteration E o path training offset (fd.take o.block_size) g acc).1 ++ r.trace,
         r.rng, r.acc, r.offset⟩) :
    ∀ fuel fd offset g acc, fd.length < fuel →
      ∃ r, read_loop E o path training fuel fd offset g acc = some r ∧ P fd offset g acc r := by
  intro fuel
  induction fuel with
  | zero => intro fd offset g acc h; omega
  | succ n ih =>
    intro fd offset g acc h
    by_cases h0 : (fd.take o.block_size).length = 0
    · refine ⟨_, ?_, hstop fd offset g acc h0⟩
      simp only [read_loop, h0, if_true]
    · have hlen : (fd.drop o.block_size).length < n := by
        simp only [List.length_take, List.length_drop] at h0 ⊢
        omega
      obtain ⟨r, hr, hP⟩ := ih (fd.drop o.block_size)
        (wrap64 (offset + (fd.take o.block_size).length))
        (iteration E o path training offset (fd.take o.block_size) g acc).2.1
        (iteration E o path training offset (fd.take o.block_size) g acc).2.2 hlen
      refine ⟨_, ?_, hstep fd offset g acc r h0 hP⟩
      simp only [read_loop, h0, if_false, hr]

theorem read_loop_update_total {σ : Type} (E : Env σ) (o : Options) (path : List Nat)
    (training : Bool) (hB : 0 < o.block_size) (fd : List Nat) (offset : Nat) (g : σ)
    (acc : List Nat) :
    ∃ r, read_loop E o path training (fd.length + 1) fd offset g acc = some r ∧
      update_total r.trace = fd.length := by
  refine read_loop_induction E o path training
    (fun fd _ _ _ r => update_total r.trace = fd.length) ?_ ?_ (fd.length + 1) fd offset g acc
    (Nat.lt_succ_self _)
  · intro fd offset g acc h0
    simp only [update_total_iteration]
    simp only [List.length_take] at h0 ⊢
    omega
  · intro fd offset g acc r _ hr
    simp only [update_total_append, update_total_iteration, hr, List.length_take,
      List.length_drop]
    omega


/-! ## From the loop to `process_file` -/

/-- The calls `process_file` makes before the first read. -/
theorem process_file_of_loop {σ : Type} (E : Env σ) (o : Options) (path file : List Nat)
    (s : Session σ) (r : Run σ)
    (hr : read_loop E o path (decide (o.opt_json ≠ 0) || decide (o.opt_train ≠ 0))
      ((if o.opt_omit = true then file.drop o.block_size else file).length + 1)
      (if o.opt_omit = true then file.drop o.block_size else file)
      (if o.opt_omit = true then wrap64 (0 + o.block_size) else 0)
      (seed_generator E o path s.rng).2 s.acc = some r) :
    process_file E o path FTW_F file s =
      some ⟨(seed_generator E o path s.rng).1
          ++ (if o.opt_json ≠ 0 then [Event.dump_json o.opt_json] else [])
          ++ (if o.opt_train ≠ 0 then [Event.dump_nodes o.opt_train] else [])
          ++ (if o.opt_omit = true then [Event.lseek o.block_size] else [])
          ++ r.trace ++ [Event.clear], r.rng, [], r.offset⟩ := by
  unfold process_file
  simp only [ne_eq, not_true_eq_false, if_false]
  rw [hr]

/-! ## Bytes fed to the accumulator -/

/-- C1 (amended): for every file of length L and block size B > 0, in either mode
and for every percentage, `process_file` returns and the byte counts it passes to
`sceadan_update` sum to L without header-skip and to L - B (truncated at 0, so 0
when L < B) with header-skip. -/
theorem process_file_update_total {σ : Type} (E : Env σ) (o : Options) (path file : List Nat)
    (s : Session σ) (hB : 0 < o.block_size) :
    ∃ r, process_file E o path FTW_F file s = some r ∧
      update_total r.trace =
        if o.opt_omit = true then file.length - o.block_size else file.length := by
  obtain ⟨r, hr, hsum⟩ := read_loop_update_total E o path
    (decide (o.opt_json ≠ 0) || decide (o.opt_train ≠ 0)) hB
    (if o.opt_omit = true then file.drop o.block_size else file)
    (if o.opt_omit = true then wrap64 (0 + o.block_size) else 0)
    (seed_generator E o path s.rng).2 s.acc
  refine ⟨_, process_file_of_loop E o path file s r hr, ?_⟩
  simp only [update_total_append, update_total_seed_generator, hsum]
  cases o.opt_omit <;> cases hj : decide (o.opt_json ≠ 0) <;>
    cases ht : decide (o.opt_train ≠ 0) <;>
    simp_all [update_total, Event.update_len]

/-- Witness for C1: a 5-byte file read with block size 2 and header-skip. -/
theorem process_file_update_total_witness :
    ∃ r, process_file counterEnv { block_size := 2, opt_omit := true } [47] FTW_F
        [1, 2, 3, 4, 5] ⟨0, []⟩ = some r ∧
      update_total r.trace =
        if ({ block_size := 2, opt_omit := true } : Options).opt_omit = true
        then [1, 2, 3, 4, 5].length - ({ block_size := 2, opt_omit := true } : Options).block_size
        else [1, 2, 3, 4, 5].length :=
  process_file_update_total counterEnv { block_size := 2, opt_omit := true } [47]
    [1, 2, 3, 4, 5] ⟨0, []⟩ (by decide)

/-- C1 as stated fails: with header-skip, block size 2 and a 1-byte file the seek
lands past the end, nothing is read, and the byte counts sum to 0 where the claim
gives L = 1. -/
theorem process_file_update_total_counterexample :
    (process_file counterEnv { block_size := 2, opt_omit := true } [47] FTW_F [7] ⟨0, []⟩).map
        (fun r => update_total r.trace) = some 0 ∧
      ¬ (process_file counterEnv { block_size := 2, opt_omit := true } [47] FTW_F [7] ⟨0, []⟩).map
        (fun r => update_total r.trace) =
        some (if true = true ∧ 2 ≤ [7].length then [7].length - 2 else [7].length) := by
  decide

/-! ## One iteration, by mode -/

theorem iteration_block_full {σ : Type} (E : Env σ) (o : Options) (path : List Nat)
    (training : Bool) (offset : Nat) (buf : List Nat) (g : σ) (acc : List Nat)
    (hb : o.opt_blocks = true) (hB : 0 < o.block_size) (hrd : buf.length = o.block_size) :
    iteration E o path training offset buf g acc =
      (Event.read buf.length :: Event.update buf ::
          (on_boundary E o path training offset buf.length g (acc ++ buf)).1,
        (on_boundary E o path training offset buf.length g (acc ++ buf)).2.1,
        (on_boundary E o path training offset buf.length g (acc ++ buf)).2.2) := by
  have h0 : 0 < buf.length := by omega
  simp [iteration, hb, hrd, hB]

theorem iteration_block_short {σ : Type} (E : Env σ) (o : Options) (path : List Nat)
    (training : Bool) (offset : Nat) (buf : List Nat) (g : σ) (acc : List Nat)
    (hb : o.opt_blocks = true) (hrd : buf.length ≠ o.block_size) :
    iteration E o path training offset buf g acc =
      (Event.read buf.length :: (if 0 < buf.length then [Event.update buf] else []), g,
        if 0 < buf.length then acc ++ buf else acc) := by
  simp [iteration, hb, hrd]

theorem iteration_whole_end {σ : Type} (E : Env σ) (o : Options) (path : List Nat)
    (training : Bool) (offset : Nat) (buf : List Nat) (g : σ) (acc : List Nat)
    (hb : o.opt_blocks = false) (hrd : buf.length = 0) :
    iteration E o path training offset buf g acc =
      (Event.read 0 :: (on_boundary E o path training offset 0 g acc).1,
        (on_boundary E o path training offset 0 g acc).2.1,
        (on_boundary E o path training offset 0 g acc).2.2) := by
  simp [iteration, hb, hrd]

theorem iteration_whole_data {σ : Type} (E : Env σ) (o : Options) (path : List Nat)
    (training : Bool) (offset : Nat) (buf : List Nat) (g : σ) (acc : List Nat)
    (hb : o.opt_blocks = false) (hrd : buf.length ≠ 0) :
    iteration E o path training offset buf g acc =
      ([Event.read buf.length, Event.update buf], g, acc ++ buf) := by
  have h0 : 0 < buf.length := by omega
  simp [iteration, hb, hrd, h0]

theorem on_boundary_100 {σ : Type} (E : Env σ) (o : Options) (path : List Nat)
    (training : Bool) (offset rd : Nat) (g : σ) (acc : List Nat)
    (hp : o.opt_percentage = 100) :
    on_boundary E o path training offset rd g acc =
      ([Event.random (E.random g).1, Event.boundary (E.random g).1 true,
          Event.classify acc (E.classify acc)]
        ++ (if training then [] else
              [Event.output path (if o.opt_blocks then offset else 0) (E.classify acc)])
        ++ (if o.opt_preport then [Event.preport offset (wrap64 (offset + rd))] else []),
      (E.random g).2, []) := by
  apply on_boundary_accept
  rw [hp]
  have : (E.random g).1 % 100 < 100 := Nat.mod_lt _ (by decide)
  omega

/-! ## Block-by-block mode, every block accepted -/

theorem output_offsets_append (a b : List Event) :
    output_offsets (a ++ b) = output_offsets a ++ output_offsets b := by
  simp [output_offsets]

theorem output_offsets_map_random (l : List Nat) : output_offsets (l.map Event.random) = [] := by
  induction l with
  | nil => rfl
  | cons a l ih => simp [output_offsets]

theorem output_offsets_seed_generator {σ : Type} (E : Env σ) (o : Options) (path : List Nat)
    (g : σ) : output_offsets (seed_generator E o path g).1 = [] := by
  by_cases h : o.opt_percentage = 100
  · rw [seed_generator_eq_100 E o path g h]; rfl
  · rw [seed_generator_eq E o path g h]
    have := output_offsets_map_random (draws E (path_draws E.char_signed path)
      (E.srandom (o.opt_seed % 4294967296).toNat))
    simp [output_offsets]

theorem wrap64_of_lt {n : Nat} (h : n < 2 ^ 64) : wrap64 n = n := Nat.mod_eq_of_lt h

theorem block_offsets_step (offset B len : Nat) (hB : 0 < B) (hlen : B ≤ len) :
    offset :: (List.range ((len - B) / B)).map (fun k => offset + B + k * B) =
      (List.range (len / B)).map (fun k => offset + k * B) := by
  rw [Nat.div_eq_sub_div hB hlen, List.range_succ_eq_map]
  simp only [List.map_cons, List.map_map, Nat.zero_mul, Nat.add_zero]
  congr 1
  apply List.map_congr_left
  intro k _
  simp only [Function.comp, Nat.succ_mul]
  omega

theorem read_loop_block_offsets {σ : Type} (E : Env σ) (o : Options) (path : List Nat)
    (hb : o.opt_blocks = true) (hp : o.opt_percentage = 100) (hB : 0 < o.block_size)
    (fd : List Nat) (offset : Nat) (g : σ) (acc : List Nat)
    (h64 : offset + fd.length < 2 ^ 64) :
    ∃ r, read_loop E o path false (fd.length + 1) fd offset g acc = some r ∧
      output_offsets r.trace =
        (List.range (fd.length / o.block_size)).map (fun k => offset + k * o.block_size) := by
  suffices key : ∃ r, read_loop E o path false (fd.length + 1) fd offset g acc = some r ∧
      (offset + fd.length < 2 ^ 64 → output_offsets r.trace =
        (List.range (fd.length / o.block_size)).map (fun k => offset + k * o.block_size)) by
    obtain ⟨r, hr, hP⟩ := key
    exact ⟨r, hr, hP h64⟩
  refine read_loop_induction E o path false
    (fun fd offset _ _ r => offset + fd.length < 2 ^ 64 → output_offsets r.trace =
      (List.range (fd.length / o.block_size)).map (fun k => offset + k * o.block_size))
    ?_ ?_ (fd.length + 1) fd offset g acc (Nat.lt_succ_self _)
  · intro fd offset g acc h0 _
    have hlen : fd.length = 0 := by
      simp only [List.length_take] at h0
      omega
    have hne : (fd.take o.block_size).length ≠ o.block_size := by omega
    simp only [iteration_block_short E o path false offset _ g acc hb hne, h0, hlen,
      Nat.zero_div, List.range_zero, List.map_nil]
    rfl
  · intro fd offset g acc r h0 ih h64
    by_cases hfull : (fd.take o.block_size).length = o.block_size
    · have hlen : o.block_size ≤ fd.length := by
        simp only [List.length_take] at hfull
        omega
      have ih' := ih (by
        rw [wrap64_of_lt (by omega), List.length_drop]
        omega)
      rw [wrap64_of_lt (by omega), List.length_drop, hfull] at ih'
      simp only [iteration_block_full E o path false offset _ g acc hb hB hfull,
        on_boundary_100 E o path false offset _ g _ hp, hb, if_true]
      rw [← block_offsets_step offset o.block_size fd.length hB hlen, ← ih']
      cases o.opt_preport <;> simp [output_offsets]
    · have hlen : fd.length < o.block_size := by
        simp only [List.length_take] at hfull
        omega
      have ih' := ih (by
        rw [List.length_drop]
        have : wrap64 (offset + (fd.take o.block_size).length) ≤
            offset + (fd.take o.block_size).length := Nat.mod_le _ _
        simp only [List.length_take] at this ⊢
        omega)
      have hd : (fd.drop o.block_size).length / o.block_size = 0 := by
        rw [List.length_drop]
        exact Nat.div_eq_of_lt (by omega)
      rw [hd] at ih'
      simp only [iteration_block_short E o path false offset _ g acc hb hfull,
        output_offsets_append, ih', Nat.div_eq_of_lt hlen, List.range_zero, List.map_nil]
      have hpos : 0 < (fd.take o.block_size).length := by omega
      rw [if_pos hpos]
      rfl

/-- C2: in block-by-block mode with percentage 100, no training side-channel and no
header-skip, for every file of length L (below 2^64, the range of the `uint64_t`
offset) and block size B > 0, `process_file` returns and prints exactly floor(L/B)
Classification Results, the k-th with offset k*B; a trailing short block prints
none. -/
theorem process_file_block_results {σ : Type} (E : Env σ) (o : Options) (path file : List Nat)
    (s : Session σ) (hB : 0 < o.block_size) (hb : o.opt_blocks = true)
    (hp : o.opt_percentage = 100) (hj : o.opt_json = 0) (ht : o.opt_train = 0)
    (hx : o.opt_omit = false) (h64 : file.length < 2 ^ 64) :
    ∃ r, process_file E o path FTW_F file s = some r ∧
      output_offsets r.trace = (List.range (file.length / o.block_size)).map
        (fun k => k * o.block_size) ∧
      (output_offsets r.trace).length = file.length / o.block_size := by
  obtain ⟨r, hr, hoff⟩ := read_loop_block_offsets E o path hb hp hB file 0
    (seed_generator E o path s.rng).2 s.acc (by omega)
  have hr' := process_file_of_loop E o path file s r (by simpa [hj, ht, hx] using hr)
  have hval : output_offsets
      ((seed_generator E o path s.rng).1
          ++ (if o.opt_json ≠ 0 then [Event.dump_json o.opt_json] else [])
          ++ (if o.opt_train ≠ 0 then [Event.dump_nodes o.opt_train] else [])
          ++ (if o.opt_omit = true then [Event.lseek o.block_size] else [])
          ++ r.trace ++ [Event.clear]) =
      (List.range (file.length / o.block_size)).map (fun k => k * o.block_size) := by
    simp only [output_offsets_append, output_offsets_seed_generator, hoff, hj, ht, hx]
    simp [output_offsets]
  refine ⟨_, hr', hval, ?_⟩
  rw [hval]
  simp

/-- Witness for C2: L = 1024, B = 512 gives exactly two results, with offsets 0 and 512. -/
theorem process_file_block_results_witness :
    ∃ r, process_file counterEnv { block_size := 512, opt_blocks := true } [47] FTW_F
        (List.replicate 1024 0) ⟨0, []⟩ = some r ∧
      output_offsets r.trace = [0, 512] ∧ (output_offsets r.trace).length = 2 := by
  obtain ⟨r, h1, h2, h3⟩ := process_file_block_results counterEnv
    { block_size := 512, opt_blocks := true } [47] (List.replicate 1024 0) ⟨0, []⟩
    (by decide) rfl rfl rfl rfl rfl (by rw [List.length_replicate]; norm_num)
  rw [List.length_replicate] at h2 h3
  exact ⟨r, h1, h2.trans (by decide), h3.trans (by decide)⟩

/-! ## Observations that ignore the calls outside the loop -/

theorem seed_generator_events {σ : Type} (E : Env σ) (o : Options) (path : List Nat) (g : σ) :
    ∀ e ∈ (seed_generator E o path g).1,
      (∃ v, e = Event.random v) ∨ (∃ v, e = Event.srandom v) := by
  intro e he
  by_cases h : o.opt_percentage = 100
  · rw [seed_generator_eq_100 E o path g h] at he
    simp at he
  · rw [seed_generator_eq E o path g h] at he
    simp only [List.mem_cons, List.mem_map] at he
    rcases he with he | ⟨v, _, hv⟩
    · exact Or.inr ⟨_, he⟩
    · exact Or.inl ⟨v, hv.symm⟩

/-- An observation that ignores seeding, dump set-up, seek and clear sees only the
events of the read loop. -/
theorem filterMap_process_file_trace {σ : Type} {β : Type} (f : Event → Option β)
    (hrandom : ∀ v, f (Event.random v) = none) (hsrandom : ∀ v, f (Event.srandom v) = none)
    (hjson : ∀ c, f (Event.dump_json c) = none) (hnodes : ∀ c, f (Event.dump_nodes c) = none)
    (hseek : ∀ n, f (Event.lseek n) = none) (hclear : f Event.clear = none)
    (E : Env σ) (o : Options) (path : List Nat) (g : σ) (tr : List Event) :
    List.filterMap f ((seed_generator E o path g).1
          ++ (if o.opt_json ≠ 0 then [Event.dump_json o.opt_json] else [])
          ++ (if o.opt_train ≠ 0 then [Event.dump_nodes o.opt_train] else [])
          ++ (if o.opt_omit = true then [Event.lseek o.block_size] else [])
          ++ tr ++ [Event.clear]) = List.filterMap f tr := by
  have hseed : List.filterMap f (seed_generator E o path g).1 = [] := by
    rw [List.filterMap_eq_nil_iff]
    intro e he
    rcases seed_generator_events E o path g e he with ⟨v, rfl⟩ | ⟨v, rfl⟩
    · exact hrandom v
    · exact hsrandom v
  simp only [List.filterMap_append, hseed, List.nil_append]
  by_cases hj : o.opt_json = 0 <;> by_cases ht : o.opt_train = 0 <;>
    cases o.opt_omit <;>
    simp [hj, ht, hjson, hnodes, hseek, hclear]

/-! ## Whole-file mode, accepted -/

theorem read_loop_whole {σ : Type} (E : Env σ) (o : Options) (path : List Nat)
    (hb : o.opt_blocks = false) (hp : o.opt_percentage = 100) (hB : 0 < o.block_size)
    (fd : List Nat) (offset : Nat) (g : σ) (acc : List Nat) :
    ∃ r, read_loop E o path false (fd.length + 1) fd offset g acc = some r ∧
      (output_offsets r.trace = [0] ∧ classified r.trace = [acc ++ fd]) := by
  refine read_loop_induction E o path false
    (fun fd _ _ acc r => output_offsets r.trace = [0] ∧ classified r.trace = [acc ++ fd])
    ?_ ?_ (fd.length + 1) fd offset g acc (Nat.lt_succ_self _)
  · intro fd offset g acc h0
    have hnil : fd = [] := by
      simp only [List.length_take] at h0
      exact List.length_eq_zero.mp (by omega)
    subst hnil
    simp only [iteration_whole_end E o path false offset _ g acc hb h0,
      on_boundary_100 E o path false offset _ g _ hp, hb]
    cases o.opt_preport <;> simp [output_offsets, classified]
  · intro fd offset g acc r h0 ih
    simp only [iteration_whole_data E o path false offset _ g acc hb h0] at ih ⊢
    obtain ⟨ih1, ih2⟩ := ih
    refine ⟨?_, ?_⟩
    · simpa [output_offsets] using ih1
    · simpa [classified, List.append_assoc] using ih2

/-- C3: in whole-file mode with percentage 100, no training side-channel and no
header-skip, for every file and block size B > 0, on a handle that starts empty
`process_file` returns, prints exactly one Classification Result, whose offset is 0,
and calls `sceadan_classify` exactly once, with exactly the bytes of the file
accumulated, in order. -/
theorem process_file_whole_result {σ : Type} (E : Env σ) (o : Options) (path file : List Nat)
    (s : Session σ) (hB : 0 < o.block_size) (hb : o.opt_blocks = false)
    (hp : o.opt_percentage = 100) (hj : o.opt_json = 0) (ht : o.opt_train = 0)
    (hx : o.opt_omit = false) (hs : s.acc = []) :
    ∃ r, process_file E o path FTW_F file s = some r ∧
      output_offsets r.trace = [0] ∧ classified r.trace = [file] := by
  obtain ⟨r, hr, hoff, hcl⟩ := read_loop_whole E o path hb hp hB file 0
    (seed_generator E o path s.rng).2 s.acc
  have hr' := process_file_of_loop E o path file s r (by simpa [hj, ht, hx] using hr)
  refine ⟨_, hr', ?_, ?_⟩
  · show List.filterMap Event.output_offset _ = [0]
    rw [filterMap_process_file_trace Event.output_offset (fun _ => rfl) (fun _ => rfl)
      (fun _ => rfl) (fun _ => rfl) (fun _ => rfl) rfl]
    exact hoff
  · show List.filterMap Event.classify_acc _ = [file]
    rw [filterMap_process_file_trace Event.classify_acc (fun _ => rfl) (fun _ => rfl)
      (fun _ => rfl) (fun _ => rfl) (fun _ => rfl) rfl]
    rw [hs] at hcl
    exact hcl

/-- Witness for C3: L = 300, B = 512 in the default whole-file mode. -/
theorem process_file_whole_result_witness :
    ∃ r, process_file counterEnv { block_size := 512 } [47] FTW_F (List.replicate 300 7)
        ⟨0, []⟩ = some r ∧
      output_offsets r.trace = [0] ∧ classified r.trace = [List.replicate 300 7] :=
  process_file_whole_result counterEnv { block_size := 512 } [47] (List.replicate 300 7)
    ⟨0, []⟩ (by decide) rfl rfl rfl rfl rfl rfl

/-! ## Header-skip -/

theorem iteration_omit_irrel {σ : Type} (E : Env σ) (o : Options) (b : Bool) (path : List Nat)
    (training : Bool) (offset : Nat) (buf : List Nat) (g : σ) (acc : List Nat) :
    iteration E { o with opt_omit := b } path training offset buf g acc =
      iteration E o path training offset buf g acc := rfl

theorem read_loop_omit_irrel {σ : Type} (E : Env σ) (o : Options) (b : Bool) (path : List Nat)
    (training : Bool) (fuel : Nat) (fd : List Nat) (offset : Nat) (g : σ) (acc : List Nat) :
    read_loop E { o with opt_omit := b } path training fuel fd offset g acc =
      read_loop E o path training fuel fd offset g acc := by
  induction fuel generalizing fd offset g acc with
  | zero => rfl
  | succ n ih =>
    simp only [read_loop, iteration_omit_irrel]
    rw [ih]

theorem on_boundary_shift {σ : Type} (E : Env σ) (o : Options) (path : List Nat)
    (training : Bool) (offset d rd : Nat) (g : σ) (acc : List Nat)
    (h64 : offset + d + rd < 2 ^ 64) :
    on_boundary E o path training (offset + d) rd g acc =
      (((on_boundary E o path training offset rd g acc).1).map (Event.shift o.opt_blocks d),
        (on_boundary E o path training offset rd g acc).2.1,
        (on_boundary E o path training offset rd g acc).2.2) := by
  have hw1 : wrap64 (offset + d + rd) = offset + d + rd := wrap64_of_lt h64
  have hw2 : wrap64 (offset + rd) = offset + rd := wrap64_of_lt (by omega)
  by_cases h : (((E.random g).1 % 100 : Nat) : Int) < o.opt_percentage
  · rw [on_boundary_accept E o path training (offset + d) rd g acc h,
      on_boundary_accept E o path training offset rd g acc h, hw1, hw2]
    cases training <;> cases o.opt_preport <;> cases o.opt_blocks <;>
      simp [Nat.add_right_comm]
  · rw [on_boundary_reject E o path training (offset + d) rd g acc h,
      on_boundary_reject E o path training offset rd g acc h]
    simp

theorem iteration_shift {σ : Type} (E : Env σ) (o : Options) (path : List Nat)
    (training : Bool) (offset d : Nat) (buf : List Nat) (g : σ) (acc : List Nat)
    (h64 : offset + d + buf.length < 2 ^ 64) :
    iteration E o path training (offset + d) buf g acc =
      (((iteration E o path training offset buf g acc).1).map (Event.shift o.opt_blocks d),
        (iteration E o path training offset buf g acc).2.1,
        (iteration E o path training offset buf g acc).2.2) := by
  unfold iteration
  by_cases hc : ((o.opt_blocks && decide (buf.length = o.block_size))
      || (!o.opt_blocks && decide (buf.length = 0))) = true
  · simp only [hc, if_true, on_boundary_shift E o path training offset d buf.length g _ h64]
    by_cases h0 : 0 < buf.length <;> simp [h0]
  · simp only [hc]
    by_cases h0 : 0 < buf.length <;> simp [h0]

theorem read_loop_shift {σ : Type} (E : Env σ) (o : Options) (path : List Nat)
    (training : Bool) (d : Nat) (fuel : Nat) (fd : List Nat) (offset : Nat) (g : σ)
    (acc : List Nat) (h64 : offset + d + fd.length < 2 ^ 64) :
    read_loop E o path training fuel fd (offset + d) g acc =
      (read_loop E o path training fuel fd offset g acc).map (Run.shift o.opt_blocks d) := by
  induction fuel generalizing fd offset g acc with
  | zero => rfl
  | succ n ih =>
    have hle : (fd.take o.block_size).length + (fd.drop o.block_size).length = fd.length := by
      simp only [List.length_take, List.length_drop]
      omega
    have hit := iteration_shift E o path training offset d (fd.take o.block_size) g acc
      (by omega)
    have hw1 : wrap64 (offset + d + (fd.take o.block_size).length) =
        offset + (fd.take o.block_size).length + d := by
      rw [wrap64_of_lt (by omega)]
      omega
    have hw2 : wrap64 (offset + (fd.take o.block_size).length) =
        offset + (fd.take o.block_size).length := wrap64_of_lt (by omega)
    simp only [read_loop]
    by_cases h0 : (fd.take o.block_size).length = 0
    · simp only [h0, if_true, Option.map_some']
      rw [hit]
      rfl
    · simp only [h0, if_false]
      rw [hw1, hw2, hit]
      rw [ih (fd.drop o.block_size) (offset + (fd.take o.block_size).length) _ _ (by omega)]
      cases read_loop E o path training n (fd.drop o.block_size)
          (offset + (fd.take o.block_size).length)
          (iteration E o path training offset (fd.take o.block_size) g acc).2.1
          (iteration E o path training offset (fd.take o.block_size) g acc).2.2 with
      | none => rfl
      | some r => simp [Run.shift]

theorem calls_map_shift (blocks : Bool) (d : Nat) (tr : List Event) :
    calls (tr.map (Event.shift blocks d)) = calls tr := by
  induction tr with
  | nil => rfl
  | cons e tr ih =>
    simp only [calls, List.map_cons] at ih ⊢
    cases e <;> simp [List.filter_cons, ih]

theorem output_offsets_map_shift (blocks : Bool) (d : Nat) (tr : List Event) :
    output_offsets (tr.map (Event.shift blocks d)) =
      (output_offsets tr).map (fun x => if blocks = true then x + d else x) := by
  induction tr with
  | nil => rfl
  | cons e tr ih =>
    simp only [output_offsets, List.map_cons] at ih ⊢
    cases e <;> simp [List.filterMap_cons, ih]

theorem fed_bytes_append (a b : List Event) : fed_bytes (a ++ b) = fed_bytes a ++ fed_bytes b := by
  simp [fed_bytes]

theorem fed_bytes_eq_nil (tr : List Event) (h : ∀ e ∈ tr, Event.update_bytes e = []) :
    fed_bytes tr = [] := by
  induction tr with
  | nil => rfl
  | cons e tr ih =>
    have h1 := h e (List.mem_cons_self _ _)
    have h2 := ih (fun e he => h e (List.mem_cons_of_mem _ he))
    simp only [fed_bytes, List.map_cons, List.flatten_cons, h1, List.nil_append] at h2 ⊢
    exact h2

theorem fed_bytes_on_boundary {σ : Type} (E : Env σ) (o : Options) (path : List Nat)
    (training : Bool) (offset rd : Nat) (g : σ) (acc : List Nat) :
    fed_bytes (on_boundary E o path training offset rd g acc).1 = [] := by
  by_cases h : (((E.random g).1 % 100 : Nat) : Int) < o.opt_percentage
  · rw [on_boundary_accept E o path training offset rd g acc h]
    cases training <;> cases o.opt_preport <;> simp [fed_bytes, Event.update_bytes]
  · rw [on_boundary_reject E o path training offset rd g acc h]
    simp [fed_bytes, Event.update_bytes]

theorem fed_bytes_iteration {σ : Type} (E : Env σ) (o : Options) (path : List Nat)
    (training : Bool) (offset : Nat) (buf : List Nat) (g : σ) (acc : List Nat) :
    fed_bytes (iteration E o path training offset buf g acc).1 = buf := by
  have hb := fed_bytes_on_boundary E o path training offset buf.length g
    (if 0 < buf.length then acc ++ buf else acc)
  have hnil : ¬ 0 < buf.length → buf = [] := fun h => List.length_eq_zero.mp (by omega)
  unfold iteration
  by_cases hc : ((o.opt_blocks && decide (buf.length = o.block_size))
      || (!o.opt_blocks && decide (buf.length = 0))) = true
  · simp only [hc, if_true]
    rw [fed_bytes_append, hb]
    by_cases h0 : 0 < buf.length
    · simp [h0, fed_bytes, Event.update_bytes]
    · simp [hnil h0, fed_bytes, Event.update_bytes]
  · simp only [hc]
    by_cases h0 : 0 < buf.length
    · simp [h0, fed_bytes, Event.update_bytes]
    · simp [hnil h0, fed_bytes, Event.update_bytes]

theorem read_loop_fed_bytes {σ : Type} (E : Env σ) (o : Options) (path : List Nat)
    (training : Bool) (hB : 0 < o.block_size) (fd : List Nat) (offset : Nat) (g : σ)
    (acc : List Nat) :
    ∃ r, read_loop E o path training (fd.length + 1) fd offset g acc = some r ∧
      fed_bytes r.trace = fd := by
  refine read_loop_induction E o path training
    (fun fd _ _ _ r => fed_bytes r.trace = fd) ?_ ?_ (fd.length + 1) fd offset g acc
    (Nat.lt_succ_self _)
  · intro fd offset g acc h0
    have hnil : fd = [] := by
      simp only [List.length_take] at h0
      exact List.length_eq_zero.mp (by omega)
    subst hnil
    simp only [fed_bytes_iteration, List.take_nil]
  · intro fd offset g acc r _ hr
    simp only [fed_bytes_append, fed_bytes_iteration, hr, List.take_append_drop]

theorem fed_bytes_process_file_trace {σ : Type} (E : Env σ) (o : Options) (path : List Nat)
    (g : σ) (tr : List Event) :
    fed_bytes ((seed_generator E o path g).1
          ++ (if o.opt_json ≠ 0 then [Event.dump_json o.opt_json] else [])
          ++ (if o.opt_train ≠ 0 then [Event.dump_nodes o.opt_train] else [])
          ++ (if o.opt_omit = true then [Event.lseek o.block_size] else [])
          ++ tr ++ [Event.clear]) = fed_bytes tr := by
  have hseed : fed_bytes (seed_generator E o path g).1 = [] := by
    apply fed_bytes_eq_nil
    intro e he
    rcases seed_generator_events E o path g e he with ⟨v, rfl⟩ | ⟨v, rfl⟩ <;> rfl
  simp only [fed_bytes_append, hseed, List.nil_append]
  by_cases hj : o.opt_json = 0 <;> by_cases ht : o.opt_train = 0 <;>
    cases o.opt_omit <;>
    simp [hj, ht, fed_bytes, Event.update_bytes]

theorem filter_process_file_trace {σ : Type} (p : Event → Bool)
    (hrandom : ∀ v, p (Event.random v) = false) (hsrandom : ∀ v, p (Event.srandom v) = false)
    (hjson : ∀ c, p (Event.dump_json c) = false) (hnodes : ∀ c, p (Event.dump_nodes c) = false)
    (hseek : ∀ n, p (Event.lseek n) = false) (hclear : p Event.clear = false)
    (E : Env σ) (o : Options) (path : List Nat) (g : σ) (tr : List Event) :
    List.filter p ((seed_generator E o path g).1
          ++ (if o.opt_json ≠ 0 then [Event.dump_json o.opt_json] else [])
          ++ (if o.opt_train ≠ 0 then [Event.dump_nodes o.opt_train] else [])
          ++ (if o.opt_omit = true then [Event.lseek o.block_size] else [])
          ++ tr ++ [Event.clear]) = List.filter p tr := by
  have hseed : List.filter p (seed_generator E o path g).1 = [] := by
    rw [List.filter_eq_nil_iff]
    intro e he
    rcases seed_generator_events E o path g e he with ⟨v, rfl⟩ | ⟨v, rfl⟩
    · simp [hrandom v]
    · simp [hsrandom v]
  simp only [List.filter_append, hseed, List.nil_append]
  by_cases hj : o.opt_json = 0 <;> by_cases ht : o.opt_train = 0 <;>
    cases o.opt_omit <;>
    simp [hj, ht, hjson, hnodes, hseek, hclear]

/-- C4: for every file of length L >= B (B > 0, L below 2^64), `process_file` with
header-skip feeds `sceadan_update` exactly the trailing L - B bytes, so none of the
first B; its sequence of update calls, boundary events and classify calls equals that
of the run without header-skip on the trailing L - B bytes; every offset printed in
block-by-block mode is B larger and the whole-file offset stays 0; and the final
logical offset is B larger. -/
theorem process_file_omit_refines {σ : Type} (E : Env σ) (o : Options) (path file : List Nat)
    (s : Session σ) (hB : 0 < o.block_size) (hL : o.block_size ≤ file.length)
    (h64 : file.length < 2 ^ 64) :
    ∃ r1 r2,
      process_file E { o with opt_omit := true } path FTW_F file s = some r1 ∧
      process_file E { o with opt_omit := false } path FTW_F (file.drop o.block_size) s
        = some r2 ∧
      fed_bytes r1.trace = file.drop o.block_size ∧
      calls r1.trace = calls r2.trace ∧
      output_offsets r1.trace = (output_offsets r2.trace).map
        (fun x => if o.opt_blocks = true then x + o.block_size else x) ∧
      r1.offset = r2.offset + o.block_size := by
  have hlen : o.block_size + (file.drop o.block_size).length < 2 ^ 64 := by
    rw [List.length_drop]
    omega
  obtain ⟨r2, hr2, _⟩ := read_loop_fed_bytes E o path
    (decide (o.opt_json ≠ 0) || decide (o.opt_train ≠ 0)) hB (file.drop o.block_size) 0
    (seed_generator E o path s.rng).2 s.acc
  obtain ⟨r1, hr1, hfed1⟩ := read_loop_fed_bytes E o path
    (decide (o.opt_json ≠ 0) || decide (o.opt_train ≠ 0)) hB (file.drop o.block_size)
    (0 + o.block_size) (seed_generator E o path s.rng).2 s.acc
  have hshift := read_loop_shift E o path
    (decide (o.opt_json ≠ 0) || decide (o.opt_train ≠ 0)) o.block_size
    ((file.drop o.block_size).length + 1) (file.drop o.block_size) 0
    (seed_generator E o path s.rng).2 s.acc (by omega)
  rw [hr1, hr2, Option.map_some'] at hshift
  have hr1eq : r1 = Run.shift o.opt_blocks o.block_size r2 := Option.some.inj hshift
  have hw : wrap64 (0 + o.block_size) = 0 + o.block_size := wrap64_of_lt (by omega)
  have hp1 := process_file_of_loop E { o with opt_omit := true } path file s r1 (by
    rw [read_loop_omit_irrel]
    simp only [if_true]
    rw [hw]
    exact hr1)
  have hp2 := process_file_of_loop E { o with opt_omit := false } path
    (file.drop o.block_size) s r2 (by
    rw [read_loop_omit_irrel]
    simpa using hr2)
  refine ⟨_, _, hp1, hp2, ?_, ?_, ?_, ?_⟩
  · rw [fed_bytes_process_file_trace]
    exact hfed1
  · show List.filter Event.is_call _ = List.filter Event.is_call _
    rw [filter_process_file_trace Event.is_call (fun _ => rfl) (fun _ => rfl)
      (fun _ => rfl) (fun _ => rfl) (fun _ => rfl) rfl,
      filter_process_file_trace Event.is_call (fun _ => rfl) (fun _ => rfl)
      (fun _ => rfl) (fun _ => rfl) (fun _ => rfl) rfl, hr1eq]
    exact calls_map_shift o.opt_blocks o.block_size r2.trace
  · show List.filterMap Event.output_offset _ = List.map _ (List.filterMap Event.output_offset _)
    rw [filterMap_process_file_trace Event.output_offset (fun _ => rfl) (fun _ => rfl)
      (fun _ => rfl) (fun _ => rfl) (fun _ => rfl) rfl,
      filterMap_process_file_trace Event.output_offset (fun _ => rfl) (fun _ => rfl)
      (fun _ => rfl) (fun _ => rfl) (fun _ => rfl) rfl, hr1eq]
    exact output_offsets_map_shift o.opt_blocks o.block_size r2.trace
  · rw [hr1eq]
    rfl

/-- Witness for C4: L = 1024, B = 512, block-by-block mode. -/
theorem process_file_omit_refines_witness :
    ∃ r1 r2,
      process_file counterEnv
        { ({ block_size := 512, opt_blocks := true } : Options) with opt_omit := true }
        [47] FTW_F (List.replicate 1024 7) ⟨0, []⟩ = some r1 ∧
      process_file counterEnv
        { ({ block_size := 512, opt_blocks := true } : Options) with opt_omit := false }
        [47] FTW_F
        ((List.replicate 1024 7).drop ({ block_size := 512, opt_blocks := true } : Options).block_size)
        ⟨0, []⟩ = some r2 ∧
      fed_bytes r1.trace =
        (List.replicate 1024 7).drop ({ block_size := 512, opt_blocks := true } : Options).block_size ∧
      calls r1.trace = calls r2.trace ∧
      output_offsets r1.trace = (output_offsets r2.trace).map
        (fun x => if ({ block_size := 512, opt_blocks := true } : Options).opt_blocks = true
          then x + ({ block_size := 512, opt_blocks := true } : Options).block_size else x) ∧
      r1.offset = r2.offset + ({ block_size := 512, opt_blocks := true } : Options).block_size :=
  process_file_omit_refines counterEnv { block_size := 512, opt_blocks := true } [47]
    (List.replicate 1024 7) ⟨0, []⟩ (by decide)
    (by rw [List.length_replicate]; decide) (by rw [List.length_replicate]; norm_num)

/-! ## The sampling gate -/

/-- A property of events that holds in every iteration holds along the whole loop. -/
theorem read_loop_forall {σ : Type} (E : Env σ) (o : Options) (path : List Nat)
    (training : Bool) (Q : Event → Prop)
    (hQ : ∀ offset buf g acc, ∀ e ∈ (iteration E o path training offset buf g acc).1, Q e)
    (fd : List Nat) (offset : Nat) (g : σ) (acc : List Nat) :
    ∃ r, read_loop E o path training (fd.length + 1) fd offset g acc = some r ∧
      ∀ e ∈ r.trace, Q e := by
  refine read_loop_induction E o path training (fun _ _ _ _ r => ∀ e ∈ r.trace, Q e)
    ?_ ?_ (fd.length + 1) fd offset g acc (Nat.lt_succ_self _)
  · intro fd offset g acc _ e he
    exact hQ offset _ g acc e he
  · intro fd offset g acc r _ ih e he
    rcases List.mem_append.mp he with h | h
    · exact hQ offset _ g acc e h
    · exact ih e h

theorem forall_process_file_trace {σ : Type} (Q : Event → Prop)
    (hrandom : ∀ v, Q (Event.random v)) (hsrandom : ∀ v, Q (Event.srandom v))
    (hjson : ∀ c, Q (Event.dump_json c)) (hnodes : ∀ c, Q (Event.dump_nodes c))
    (hseek : ∀ n, Q (Event.lseek n)) (hclear : Q Event.clear)
    (E : Env σ) (o : Options) (path : List Nat) (g : σ) (tr : List Event)
    (htr : ∀ e ∈ tr, Q e) :
    ∀ e ∈ ((seed_generator E o path g).1
          ++ (if o.opt_json ≠ 0 then [Event.dump_json o.opt_json] else [])
          ++ (if o.opt_train ≠ 0 then [Event.dump_nodes o.opt_train] else [])
          ++ (if o.opt_omit = true then [Event.lseek o.block_size] else [])
          ++ tr ++ [Event.clear]), Q e := by
  intro e he
  simp only [List.mem_append, List.mem_singleton] at he
  rcases he with ((((he | he) | he) | he) | he) | he
  · rcases seed_generator_events E o path g e he with ⟨v, rfl⟩ | ⟨v, rfl⟩
    · exact hrandom v
    · exact hsrandom v
  · by_cases hj : o.opt_json = 0
    · simp [hj] at he
    · simp only [ne_eq, hj, not_false_eq_true, if_true, List.mem_singleton] at he
      rw [he]
      exact hjson _
  · by_cases ht : o.opt_train = 0
    · simp [ht] at he
    · simp only [ne_eq, ht, not_false_eq_true, if_true, List.mem_singleton] at he
      rw [he]
      exact hnodes _
  · by_cases hx : o.opt_omit = true
    · simp only [hx, if_true, List.mem_singleton] at he
      rw [he]
      exact hseek _
    · simp [hx] at he
  · exact htr e he
  · rw [he]
    exact hclear

theorem on_boundary_sampling_ok {σ : Type} (E : Env σ) (o : Options) (path : List Nat)
    (training : Bool) (offset rd : Nat) (g : σ) (acc : List Nat) :
    ∀ e ∈ (on_boundary E o path training offset rd g acc).1, sampling_ok o.opt_percentage e := by
  intro e he
  by_cases h : (((E.random g).1 % 100 : Nat) : Int) < o.opt_percentage
  · have hpos : 0 < o.opt_percentage := by omega
    rw [on_boundary_accept E o path training offset rd g acc h] at he
    simp only [List.mem_append, List.mem_cons, List.mem_singleton, List.not_mem_nil,
      or_false] at he
    rcases he with ((he | he | he) | he) | he
    · rw [he]; trivial
    · rw [he]; simp only [sampling_ok, true_iff]; exact h
    · rw [he]; exact hpos
    · cases training
      · simp only [Bool.false_eq_true, if_false, List.mem_singleton] at he
        rw [he]; exact hpos
      · simp at he
    · by_cases hp : o.opt_preport = true
      · simp only [hp, if_true, List.mem_singleton] at he
        rw [he]; trivial
      · simp [hp] at he
  · rw [on_boundary_reject E o path training offset rd g acc h] at he
    simp only [List.mem_cons, List.mem_singleton, List.not_mem_nil, or_false] at he
    rcases he with he | he
    · rw [he]; trivial
    · rw [he]; simp only [sampling_ok, Bool.false_eq_true, false_iff]; exact h

theorem iteration_sampling_ok {σ : Type} (E : Env σ) (o : Options) (path : List Nat)
    (training : Bool) (offset : Nat) (buf : List Nat) (g : σ) (acc : List Nat) :
    ∀ e ∈ (iteration E o path training offset buf g acc).1, sampling_ok o.opt_percentage e := by
  intro e he
  have hev1 : ∀ e ∈ Event.read buf.length :: (if 0 < buf.length then [Event.update buf] else []),
      sampling_ok o.opt_percentage e := by
    intro e he
    by_cases h0 : 0 < buf.length
    · simp only [h0, if_true, List.mem_cons, List.mem_singleton, List.not_mem_nil,
        or_false] at he
      rcases he with he | he <;> (rw [he]; trivial)
    · simp only [h0, if_false, List.mem_singleton] at he
      rw [he]; trivial
  unfold iteration at he
  by_cases hc : ((o.opt_blocks && decide (buf.length = o.block_size))
      || (!o.opt_blocks && decide (buf.length = 0))) = true
  · simp only [hc, if_true] at he
    rcases List.mem_append.mp he with h | h
    · exact hev1 e h
    · exact on_boundary_sampling_ok E o path training offset _ g _ e h
  · simp only [hc] at he
    exact hev1 e he

/-- C5: for every file, path, seed, mode, block size and generator state,
`process_file` returns and every boundary event is accepted iff
`draw % 100 < opt_percentage`; with percentage 0 it never calls `sceadan_classify`
and prints no Classification Result; with percentage 100 or above every boundary
event is accepted. -/
theorem process_file_sampling {σ : Type} (E : Env σ) (o : Options) (path file : List Nat)
    (s : Session σ) :
    ∃ r, process_file E o path FTW_F file s = some r ∧
      (∀ d b, Event.boundary d b ∈ r.trace →
        (b = true ↔ ((d % 100 : Nat) : Int) < o.opt_percentage)) ∧
      (o.opt_percentage = 0 → classified r.trace = [] ∧ output_offsets r.trace = []) ∧
      (100 ≤ o.opt_percentage → ∀ d b, Event.boundary d b ∈ r.trace → b = true) := by
  obtain ⟨r, hr, hall⟩ := read_loop_forall E o path
    (decide (o.opt_json ≠ 0) || decide (o.opt_train ≠ 0)) (sampling_ok o.opt_percentage)
    (iteration_sampling_ok E o path _)
    (if o.opt_omit = true then file.drop o.block_size else file)
    (if o.opt_omit = true then wrap64 (0 + o.block_size) else 0)
    (seed_generator E o path s.rng).2 s.acc
  have hall' := forall_process_file_trace (sampling_ok o.opt_percentage)
    (fun _ => trivial) (fun _ => trivial) (fun _ => trivial) (fun _ => trivial)
    (fun _ => trivial) trivial E o path s.rng r.trace hall
  refine ⟨_, process_file_of_loop E o path file s r hr, ?_, ?_, ?_⟩
  · intro d b hmem
    exact hall' _ hmem
  · intro h0
    constructor
    · show List.filterMap Event.classify_acc _ = []
      rw [List.filterMap_eq_nil_iff]
      intro e he
      have hq := hall' e he
      cases e <;> first | rfl | (simp only [sampling_ok, h0] at hq; omega)
    · show List.filterMap Event.output_offset _ = []
      rw [List.filterMap_eq_nil_iff]
      intro e he
      have hq := hall' e he
      cases e <;> first | rfl | (simp only [sampling_ok, h0] at hq; omega)
  · intro h100 d b hmem
    have hq : (b = true ↔ ((d % 100 : Nat) : Int) < o.opt_percentage) := hall' _ hmem
    rw [hq]
    have : d % 100 < 100 := Nat.mod_lt _ (by decide)
    omega

/-! ## The generator along the loop -/

theorem draws_from_append {σ : Type} (E : Env σ) (pct : Int) (g g1 g2 : σ) (a b : Nat)
    (t1 t2 : List Event) (h1 : draws_from E pct g a t1 g1) (h2 : draws_from E pct g1 b t2 g2) :
    draws_from E pct g (a + b) (t1 ++ t2) g2 := by
  obtain ⟨a1, a2, a3, a4, a5, a6⟩ := h1
  obtain ⟨b1, b2, b3, b4, b5, b6⟩ := h2
  subst a5
  refine ⟨?_, ?_, ?_, ?_, ?_, ?_⟩
  · simp only [boundary_count, List.countP_append] at a1 b1 ⊢
    omega
  · simp only [boundary_draws, List.filterMap_append] at a2 b2 ⊢
    rw [a2, b2, draws_add]
  · simp only [random_calls, List.countP_append] at a3 b3 ⊢
    omega
  · simp only [srandom_calls, List.countP_append] at a4 b4 ⊢
    omega
  · rw [b5, advance_add]
  · simp only [decisions, List.filterMap_append] at a6 b6 ⊢
    rw [a6, b6, draws_add, List.map_append]

theorem draws_from_on_boundary {σ : Type} (E : Env σ) (o : Options) (path : List Nat)
    (training : Bool) (offset rd : Nat) (g : σ) (acc : List Nat) :
    draws_from E o.opt_percentage g 1 (on_boundary E o path training offset rd g acc).1
      (on_boundary E o path training offset rd g acc).2.1 := by
  by_cases h : (((E.random g).1 % 100 : Nat) : Int) < o.opt_percentage
  · have hpb : process_block o.opt_percentage (E.random g).1 = true := by
      simp only [process_block, decide_eq_true_eq]
      exact h
    rw [on_boundary_accept E o path training offset rd g acc h]
    cases training <;> cases o.opt_preport <;>
      simp [draws_from, boundary_count, boundary_draws, random_calls, srandom_calls, decisions,
        draws, advance, hpb]
  · have hpb : process_block o.opt_percentage (E.random g).1 = false := by
      simp only [process_block, decide_eq_false_iff_not]
      exact h
    rw [on_boundary_reject E o path training offset rd g acc h]
    simp [draws_from, boundary_count, boundary_draws, random_calls, srandom_calls, decisions,
      draws, advance, hpb]

theorem draws_from_iteration {σ : Type} (E : Env σ) (o : Options) (path : List Nat)
    (training : Bool) (offset : Nat) (buf : List Nat) (g : σ) (acc : List Nat) :
    ∃ k, draws_from E o.opt_percentage g k (iteration E o path training offset buf g acc).1
      (iteration E o path training offset buf g acc).2.1 := by
  have hev1 : draws_from E o.opt_percentage g 0
      (Event.read buf.length :: (if 0 < buf.length then [Event.update buf] else [])) g := by
    by_cases h0 : 0 < buf.length <;>
      simp [h0, draws_from, boundary_count, boundary_draws, random_calls, srandom_calls,
        decisions, draws, advance]
  unfold iteration
  by_cases hc : ((o.opt_blocks && decide (buf.length = o.block_size))
      || (!o.opt_blocks && decide (buf.length = 0))) = true
  · simp only [hc, if_true]
    exact ⟨0 + 1, draws_from_append E _ g g _ 0 1 _ _ hev1
      (draws_from_on_boundary E o path training offset _ g _)⟩
  · simp only [hc]
    exact ⟨0, hev1⟩

theorem read_loop_draws_from {σ : Type} (E : Env σ) (o : Options) (path : List Nat)
    (training : Bool) (fd : List Nat) (offset : Nat) (g : σ) (acc : List Nat) :
    ∃ r, read_loop E o path training (fd.length + 1) fd offset g acc = some r ∧
      ∃ n, draws_from E o.opt_percentage g n r.trace r.rng := by
  refine read_loop_induction E o path training
    (fun _ _ g _ r => ∃ n, draws_from E o.opt_percentage g n r.trace r.rng)
    ?_ ?_ (fd.length + 1) fd offset g acc (Nat.lt_succ_self _)
  · intro fd offset g acc _
    exact draws_from_iteration E o path training offset _ g acc
  · intro fd offset g acc r _ ih
    obtain ⟨k, hk⟩ := draws_from_iteration E o path training offset (fd.take o.block_size) g acc
    obtain ⟨n, hn⟩ := ih
    exact ⟨k + n, draws_from_append E _ g _ _ k n _ _ hk hn⟩

theorem countP_process_file_trace {σ : Type} (p : Event → Bool)
    (hjson : ∀ c, p (Event.dump_json c) = false) (hnodes : ∀ c, p (Event.dump_nodes c) = false)
    (hseek : ∀ n, p (Event.lseek n) = false) (hclear : p Event.clear = false)
    (E : Env σ) (o : Options) (path : List Nat) (g : σ) (tr : List Event) :
    List.countP p ((seed_generator E o path g).1
          ++ (if o.opt_json ≠ 0 then [Event.dump_json o.opt_json] else [])
          ++ (if o.opt_train ≠ 0 then [Event.dump_nodes o.opt_train] else [])
          ++ (if o.opt_omit = true then [Event.lseek o.block_size] else [])
          ++ tr ++ [Event.clear]) =
      List.countP p (seed_generator E o path g).1 + List.countP p tr := by
  simp only [List.countP_append]
  by_cases hj : o.opt_json = 0 <;> by_cases ht : o.opt_train = 0 <;>
    cases o.opt_omit <;>
    simp [hj, ht, hjson, hnodes, hseek, hclear]

/-- C6 (amended): with percentage 100 `process_file` returns, never re-seeds the
generator and makes no path-derived draw; it calls `random()` exactly once per
boundary event, so the generator state afterwards is the state before advanced by
the number of boundary events. -/
theorem process_file_generator_at_100 {σ : Type} (E : Env σ) (o : Options)
    (path file : List Nat) (s : Session σ) (hp : o.opt_percentage = 100) :
    ∃ r, process_file E o path FTW_F file s = some r ∧
      srandom_calls r.trace = 0 ∧
      random_calls r.trace = boundary_count r.trace ∧
      r.rng = advance E (boundary_count r.trace) s.rng := by
  obtain ⟨r, hr, n, h1, _, h3, h4, h5, _⟩ := read_loop_draws_from E o path
    (decide (o.opt_json ≠ 0) || decide (o.opt_train ≠ 0))
    (if o.opt_omit = true then file.drop o.block_size else file)
    (if o.opt_omit = true then wrap64 (0 + o.block_size) else 0)
    (seed_generator E o path s.rng).2 s.acc
  have hseed := seed_generator_eq_100 E o path s.rng hp
  have hs1 : (seed_generator E o path s.rng).1 = [] := by rw [hseed]
  have hs2 : (seed_generator E o path s.rng).2 = s.rng := by rw [hseed]
  have hb : boundary_count ((seed_generator E o path s.rng).1
          ++ (if o.opt_json ≠ 0 then [Event.dump_json o.opt_json] else [])
          ++ (if o.opt_train ≠ 0 then [Event.dump_nodes o.opt_train] else [])
          ++ (if o.opt_omit = true then [Event.lseek o.block_size] else [])
          ++ r.trace ++ [Event.clear]) = n := by
    show List.countP Event.is_boundary _ = n
    rw [countP_process_file_trace Event.is_boundary (fun _ => rfl) (fun _ => rfl)
      (fun _ => rfl) rfl, hs1]
    simpa [boundary_count] using h1
  refine ⟨_, process_file_of_loop E o path file s r hr, ?_, ?_, ?_⟩
  · show List.countP Event.is_srandom _ = 0
    rw [countP_process_file_trace Event.is_srandom (fun _ => rfl) (fun _ => rfl)
      (fun _ => rfl) rfl, hs1]
    simpa [srandom_calls] using h4
  · rw [hb]
    show List.countP Event.is_random _ = n
    rw [countP_process_file_trace Event.is_random (fun _ => rfl) (fun _ => rfl)
      (fun _ => rfl) rfl, hs1]
    simpa [random_calls] using h3
  · rw [hb]
    show r.rng = advance E n s.rng
    rw [h5, hs2]

/-- Witness for C6: default options (percentage 100) on a 3-byte file. -/
theorem process_file_generator_at_100_witness :
    ∃ r, process_file counterEnv {} [47] FTW_F [1, 2, 3] ⟨5, []⟩ = some r ∧
      srandom_calls r.trace = 0 ∧
      random_calls r.trace = boundary_count r.trace ∧
      r.rng = advance counterEnv (boundary_count r.trace) (⟨5, []⟩ : Session Nat).rng :=
  process_file_generator_at_100 counterEnv {} [47] [1, 2, 3] ⟨5, []⟩ rfl

/-- C6 as stated fails: with percentage 100 (the default), whole-file mode and a
3-byte file, `process_file` calls `random()` once, at the end-of-stream boundary,
and leaves the generator in state 6 where it found it in state 5. -/
theorem process_file_generator_at_100_counterexample :
    (process_file counterEnv {} [47] FTW_F [1, 2, 3] ⟨5, []⟩).map
        (fun r => (random_calls r.trace, r.rng)) = some (1, 6) ∧
      ¬ (process_file counterEnv {} [47] FTW_F [1, 2, 3] ⟨5, []⟩).map
        (fun r => (random_calls r.trace, r.rng)) = some (0, 5) := by
  decide

/-! ## Determinism of sampling -/

theorem draws_getElem? {σ : Type} (E : Env σ) (n : Nat) (g : σ) (i d : Nat)
    (h : (draws E n g)[i]? = some d) : d = (E.random (advance E i g)).1 := by
  induction n generalizing g i with
  | zero => simp [draws] at h
  | succ n ih =>
    cases i with
    | zero =>
      simp only [draws, List.getElem?_cons_zero, Option.some.injEq] at h
      rw [← h]
      rfl
    | succ i =>
      simp only [draws, List.getElem?_cons_succ] at h
      exact ih _ i h

theorem process_block_100 (d : Nat) : process_block 100 d = true := by
  have : d % 100 < 100 := Nat.mod_lt _ (by decide)
  simp only [process_block, decide_eq_true_eq]
  omega

/-- The decisions of a `process_file` call are those of the draws that follow seeding. -/
theorem process_file_decisions {σ : Type} (E : Env σ) (o : Options) (path file : List Nat)
    (s : Session σ) :
    ∃ r, process_file E o path FTW_F file s = some r ∧
      ∃ n, decisions r.trace = (draws E n (seed_generator E o path s.rng).2).map
          (process_block o.opt_percentage) ∧
        boundary_draws r.trace = draws E n (seed_generator E o path s.rng).2 := by
  obtain ⟨r, hr, n, _, h2, _, _, _, h6⟩ := read_loop_draws_from E o path
    (decide (o.opt_json ≠ 0) || decide (o.opt_train ≠ 0))
    (if o.opt_omit = true then file.drop o.block_size else file)
    (if o.opt_omit = true then wrap64 (0 + o.block_size) else 0)
    (seed_generator E o path s.rng).2 s.acc
  refine ⟨_, process_file_of_loop E o path file s r hr, n, ?_, ?_⟩
  · show List.filterMap Event.decision _ = _
    rw [filterMap_process_file_trace Event.decision (fun _ => rfl) (fun _ => rfl)
      (fun _ => rfl) (fun _ => rfl) (fun _ => rfl) rfl]
    exact h6
  · show List.filterMap Event.boundary_draw _ = _
    rw [filterMap_process_file_trace Event.boundary_draw (fun _ => rfl) (fun _ => rfl)
      (fun _ => rfl) (fun _ => rfl) (fun _ => rfl) rfl]
    exact h2

/-- C7: for every seed, path and percentage, two `process_file` runs return and take
the same accept/reject decision at their i-th boundary event wherever both have
one, whatever the generator state before each run, the file contents and the
other options of the two runs. -/
theorem process_file_decisions_deterministic {σ : Type} (E : Env σ) (o1 o2 : Options)
    (path file1 file2 : List Nat) (s1 s2 : Session σ)
    (hseed : o1.opt_seed = o2.opt_seed) (hpct : o1.opt_percentage = o2.opt_percentage) :
    ∃ r1 r2, process_file E o1 path FTW_F file1 s1 = some r1 ∧
      process_file E o2 path FTW_F file2 s2 = some r2 ∧
      ∀ (i : Nat) (b1 b2 : Bool), (decisions r1.trace)[i]? = some b1 →
        (decisions r2.trace)[i]? = some b2 →
        b1 = b2 := by
  obtain ⟨r1, hr1, n1, hd1, _⟩ := process_file_decisions E o1 path file1 s1
  obtain ⟨r2, hr2, n2, hd2, _⟩ := process_file_decisions E o2 path file2 s2
  refine ⟨r1, r2, hr1, hr2, ?_⟩
  intro i b1 b2 h1 h2
  rw [hd1, List.getElem?_map] at h1
  rw [hd2, List.getElem?_map] at h2
  obtain ⟨d1, hd1', hb1⟩ := Option.map_eq_some'.mp h1
  obtain ⟨d2, hd2', hb2⟩ := Option.map_eq_some'.mp h2
  by_cases hp : o1.opt_percentage = 100
  · rw [← hb1, ← hb2, ← hpct, hp, process_block_100, process_block_100]
  · have hp2 : o2.opt_percentage ≠ 100 := by rw [← hpct]; exact hp
    rw [seed_generator_eq E o1 path s1.rng hp] at hd1'
    rw [seed_generator_eq E o2 path s2.rng hp2, ← hseed] at hd2'
    have e1 := draws_getElem? E _ _ i d1 hd1'
    have e2 := draws_getElem? E _ _ i d2 hd2'
    rw [← hb1, ← hb2, e1, e2, hpct]

/-- Witness for C7: the same seed, path and percentage on two different files, from
two different generator states. -/
theorem process_file_decisions_deterministic_witness :
    ∃ r1 r2,
      process_file counterEnv
        { block_size := 1, opt_blocks := true, opt_percentage := 50, opt_seed := 3 }
        [47] FTW_F [1, 2, 3] ⟨0, []⟩ = some r1 ∧
      process_file counterEnv
        { block_size := 1, opt_blocks := true, opt_percentage := 50, opt_seed := 3 }
        [47] FTW_F [9, 9] ⟨77, []⟩ = some r2 ∧
      ∀ (i : Nat) (b1 b2 : Bool), (decisions r1.trace)[i]? = some b1 →
        (decisions r2.trace)[i]? = some b2 →
        b1 = b2 :=
  process_file_decisions_deterministic counterEnv
    { block_size := 1, opt_blocks := true, opt_percentage := 50, opt_seed := 3 }
    { block_size := 1, opt_blocks := true, opt_percentage := 50, opt_seed := 3 }
    [47] [1, 2, 3] [9, 9] ⟨0, []⟩ ⟨77, []⟩ rfl rfl

/-! ## Seeding from the path -/

theorem path_draws_eq (char_signed : Bool) (path : List Nat)
    (hpath : ∀ c ∈ path, 0 < c ∧ c < 256) :
    path_draws char_signed path =
      (path.map (fun c => if char_signed = true ∧ 128 ≤ c then 0 else c)).sum := by
  induction path with
  | nil => rfl
  | cons c cs ih =>
    have hc := hpath c (List.mem_cons_self _ _)
    have ih' := ih (fun c h => hpath c (List.mem_cons_of_mem _ h))
    have hc0 : c ≠ 0 := by omega
    simp only [path_draws, hc0, if_false, List.map_cons, List.sum_cons, ih']
    congr 1
    cases char_signed
    · simp [char_value]
    · by_cases h128 : 128 ≤ c
      · simp only [char_value, Bool.true_and, decide_eq_true_eq, h128, if_true, and_self]
        omega
      · simp [char_value, h128]

theorem countP_is_random_map_random (l : List Nat) :
    List.countP Event.is_random (l.map Event.random) = l.length := by
  induction l with
  | nil => rfl
  | cons a l ih => simp [List.countP_cons, ih]

theorem countP_is_srandom_map_random (l : List Nat) :
    List.countP Event.is_srandom (l.map Event.random) = 0 := by
  induction l with
  | nil => rfl
  | cons a l ih => simp [List.countP_cons]

theorem iteration_head {σ : Type} (E : Env σ) (o : Options) (path : List Nat)
    (training : Bool) (offset : Nat) (buf : List Nat) (g : σ) (acc : List Nat) :
    ∃ rest, (iteration E o path training offset buf g acc).1 = Event.read buf.length :: rest := by
  unfold iteration
  by_cases hc : ((o.opt_blocks && decide (buf.length = o.block_size))
      || (!o.opt_blocks && decide (buf.length = 0))) = true
  · simp only [hc, if_true, List.cons_append]
    exact ⟨_, rfl⟩
  · simp only [hc]
    exact ⟨_, rfl⟩

theorem read_loop_head {σ : Type} (E : Env σ) (o : Options) (path : List Nat)
    (training : Bool) (fd : List Nat) (offset : Nat) (g : σ) (acc : List Nat) :
    ∃ r, read_loop E o path training (fd.length + 1) fd offset g acc = some r ∧
      ∃ n rest, r.trace = Event.read n :: rest := by
  refine read_loop_induction E o path training
    (fun _ _ _ _ r => ∃ n rest, r.trace = Event.read n :: rest)
    ?_ ?_ (fd.length + 1) fd offset g acc (Nat.lt_succ_self _)
  · intro fd offset g acc _
    obtain ⟨rest, h⟩ := iteration_head E o path training offset (fd.take o.block_size) g acc
    exact ⟨_, rest, h⟩
  · intro fd offset g acc r _ _
    obtain ⟨rest, h⟩ := iteration_head E o path training offset (fd.take o.block_size) g acc
    exact ⟨(fd.take o.block_size).length, rest ++ r.trace, by simp only [h, List.cons_append]⟩

/-- C8 (amended): when the percentage is not 100, for every path of non-zero bytes
`process_file` returns; its first call is `srandom` with the configured seed, the
only re-seeding; before the first read it calls `random()` exactly S times, where
each path byte contributes its value, except that a byte of 128..255 contributes
nothing where plain `char` is signed; and the first boundary decision uses draw
number S + 1 after seeding. -/
theorem process_file_seeding {σ : Type} (E : Env σ) (o : Options) (path file : List Nat)
    (s : Session σ) (hp : o.opt_percentage ≠ 100) (hpath : ∀ c ∈ path, 0 < c ∧ c < 256) :
    ∃ r, process_file E o path FTW_F file s = some r ∧
      r.trace.head? = some (Event.srandom (o.opt_seed % 4294967296).toNat) ∧
      srandom_calls r.trace = 1 ∧
      random_calls (before_first_read r.trace) =
        (path.map (fun c => if E.char_signed = true ∧ 128 ≤ c then 0 else c)).sum ∧
      ∀ d, (boundary_draws r.trace).head? = some d →
        d = (E.random (advance E
          (path.map (fun c => if E.char_signed = true ∧ 128 ≤ c then 0 else c)).sum
          (E.srandom (o.opt_seed % 4294967296).toNat))).1 := by
  obtain ⟨r, hr, n, _, _, _, h4, _, _⟩ := read_loop_draws_from E o path
    (decide (o.opt_json ≠ 0) || decide (o.opt_train ≠ 0))
    (if o.opt_omit = true then file.drop o.block_size else file)
    (if o.opt_omit = true then wrap64 (0 + o.block_size) else 0)
    (seed_generator E o path s.rng).2 s.acc
  obtain ⟨r0, hr0, k, rest, hhead⟩ := read_loop_head E o path
    (decide (o.opt_json ≠ 0) || decide (o.opt_train ≠ 0))
    (if o.opt_omit = true then file.drop o.block_size else file)
    (if o.opt_omit = true then wrap64 (0 + o.block_size) else 0)
    (seed_generator E o path s.rng).2 s.acc
  have hr0eq : r0 = r := Option.some.inj (hr0.symm.trans hr)
  subst hr0eq
  have hpf := process_file_of_loop E o path file s r0 hr
  obtain ⟨r', hr', m, _, hbd⟩ := process_file_decisions E o path file s
  have hr'eq := Option.some.inj (hr'.symm.trans hpf)
  have hS := path_draws_eq E.char_signed path hpath
  have hseed := seed_generator_eq E o path s.rng hp
  have hs1 : (seed_generator E o path s.rng).1 =
      Event.srandom (o.opt_seed % 4294967296).toNat ::
        (draws E (path_draws E.char_signed path)
          (E.srandom (o.opt_seed % 4294967296).toNat)).map Event.random := by rw [hseed]
  have hs2 : (seed_generator E o path s.rng).2 = advance E (path_draws E.char_signed path)
      (E.srandom (o.opt_seed % 4294967296).toNat) := by rw [hseed]
  refine ⟨_, hpf, ?_, ?_, ?_, ?_⟩
  · simp only [hs1, List.cons_append, List.head?_cons]
  · show List.countP Event.is_srandom _ = 1
    rw [countP_process_file_trace Event.is_srandom (fun _ => rfl) (fun _ => rfl)
      (fun _ => rfl) rfl, hs1, List.countP_cons, countP_is_srandom_map_random]
    simpa [srandom_calls] using h4
  · have hpre : ∀ e ∈ ((seed_generator E o path s.rng).1
          ++ (if o.opt_json ≠ 0 then [Event.dump_json o.opt_json] else [])
          ++ (if o.opt_train ≠ 0 then [Event.dump_nodes o.opt_train] else [])
          ++ (if o.opt_omit = true then [Event.lseek o.block_size] else [])),
        (fun e : Event => !e.is_read) e = true := by
      intro e he
      exact forall_process_file_trace (fun e => (!e.is_read) = true)
        (fun _ => rfl) (fun _ => rfl) (fun _ => rfl) (fun _ => rfl) (fun _ => rfl) rfl
        E o path s.rng [] (fun _ h => absurd h (List.not_mem_nil _)) e
        (List.mem_append_left _ (by simpa using he))
    have hcount := countP_process_file_trace Event.is_random (fun _ => rfl) (fun _ => rfl)
      (fun _ => rfl) rfl E o path s.rng []
    simp only [List.append_nil, List.countP_append, List.countP_nil, Nat.add_zero] at hcount
    have hclear : List.countP Event.is_random [Event.clear] = 0 := rfl
    rw [hclear, Nat.add_zero] at hcount
    show random_calls (List.takeWhile _ _) = _
    rw [hhead, List.append_assoc, List.takeWhile_append_of_pos hpre]
    simp only [List.cons_append, Event.is_read, Bool.not_true, Bool.false_eq_true,
      not_false_eq_true, List.takeWhile_cons_of_neg, List.append_nil]
    simp only [random_calls, List.countP_append]
    rw [hcount, hs1, List.countP_cons, countP_is_random_map_random, draws_length, hS]
    simp
  · intro d hd
    have hbd' : boundary_draws r'.trace = draws E m
        (advance E (path_draws E.char_signed path)
          (E.srandom (o.opt_seed % 4294967296).toNat)) := by rw [hbd, hs2]
    rw [hr'eq] at hbd'
    simp only [hbd', List.head?_eq_getElem?] at hd
    have := draws_getElem? E _ _ 0 d hd
    rw [this, hS]
    rfl

/-- Witness for C8: a path of bytes 47 and 200 on a platform with signed `char`. -/
theorem process_file_seeding_witness :
    ∃ r, process_file counterEnv { opt_percentage := 50, opt_seed := 3 } [47, 200] FTW_F
        [1, 2, 3] ⟨0, []⟩ = some r ∧
      r.trace.head? = some (Event.srandom
        ((({ opt_percentage := 50, opt_seed := 3 } : Options).opt_seed) % 4294967296).toNat) ∧
      srandom_calls r.trace = 1 ∧
      random_calls (before_first_read r.trace) =
        ([47, 200].map (fun c => if counterEnv.char_signed = true ∧ 128 ≤ c then 0 else c)).sum ∧
      ∀ d, (boundary_draws r.trace).head? = some d →
        d = (counterEnv.random (advance counterEnv
          ([47, 200].map (fun c => if counterEnv.char_signed = true ∧ 128 ≤ c then 0 else c)).sum
          (counterEnv.srandom
            ((({ opt_percentage := 50, opt_seed := 3 } : Options).opt_seed)
              % 4294967296).toNat))).1 :=
  process_file_seeding counterEnv { opt_percentage := 50, opt_seed := 3 } [47, 200] [1, 2, 3]
    ⟨0, []⟩ (by decide) (by decide)

/-- C8 as stated fails: where plain `char` is signed, the path byte 200 is the
negative `char` -56, the inner loop does not run, and `random()` is called 0 times
before the first read where the claim gives S = 200. -/
theorem process_file_seeding_counterexample :
    (process_file counterEnv { opt_percentage := 50 } [200] FTW_F [1, 2, 3] ⟨0, []⟩).map
        (fun r => random_calls (before_first_read r.trace)) = some 0 ∧
      ¬ (process_file counterEnv { opt_percentage := 50 } [200] FTW_F [1, 2, 3] ⟨0, []⟩).map
        (fun r => random_calls (before_first_read r.trace)) = some ([200].sum) := by
  decide

/-! ## Block-by-block mode under sampling -/

theorem classified_append (a b : List Event) :
    classified (a ++ b) = classified a ++ classified b := by
  simp [classified]

theorem block_list_step (B : Nat) (fd : List Nat) (hB : 0 < B) (hlen : B ≤ fd.length) :
    fd.take B :: (List.range ((fd.drop B).length / B)).map
        (fun k => ((fd.drop B).drop (k * B)).take B) =
      (List.range (fd.length / B)).map (fun k => (fd.drop (k * B)).take B) := by
  rw [List.length_drop, Nat.div_eq_sub_div hB hlen, List.range_succ_eq_map]
  simp only [List.map_cons, List.map_map, Nat.zero_mul, List.drop_zero]
  congr 1
  apply List.map_congr_left
  intro k _
  simp only [Function.comp, Nat.succ_mul, List.drop_drop]
  rw [Nat.add_comm]

/-- In block-by-block mode with percentage 100 every `sceadan_classify` call sees
exactly one block: on a handle that starts empty, the accumulated bytes at the k-th
call are the B bytes of the k-th block. -/
theorem read_loop_block_classified {σ : Type} (E : Env σ) (o : Options) (path : List Nat)
    (training : Bool) (hb : o.opt_blocks = true) (hp : o.opt_percentage = 100)
    (hB : 0 < o.block_size) (fd : List Nat) (offset : Nat) (g : σ) :
    ∃ r, read_loop E o path training (fd.length + 1) fd offset g [] = some r ∧
      classified r.trace = (List.range (fd.length / o.block_size)).map
        (fun k => (fd.drop (k * o.block_size)).take o.block_size) := by
  suffices key : ∃ r, read_loop E o path training (fd.length + 1) fd offset g [] = some r ∧
      (([] : List Nat) = [] ∨ fd.length < o.block_size → classified r.trace =
        (List.range (fd.length / o.block_size)).map
          (fun k => (fd.drop (k * o.block_size)).take o.block_size)) by
    obtain ⟨r, hr, hP⟩ := key
    exact ⟨r, hr, hP (Or.inl rfl)⟩
  refine read_loop_induction E o path training
    (fun fd _ _ acc r => acc = [] ∨ fd.length < o.block_size → classified r.trace =
      (List.range (fd.length / o.block_size)).map
        (fun k => (fd.drop (k * o.block_size)).take o.block_size))
    ?_ ?_ (fd.length + 1) fd offset g [] (Nat.lt_succ_self _)
  · intro fd offset g acc h0 _
    have hlen : fd.length = 0 := by
      simp only [List.length_take] at h0
      omega
    have hne : (fd.take o.block_size).length ≠ o.block_size := by omega
    simp only [iteration_block_short E o path training offset _ g acc hb hne, h0, hlen,
      Nat.zero_div, List.range_zero, List.map_nil]
    rfl
  · intro fd offset g acc r h0 ih hacc
    by_cases hfull : (fd.take o.block_size).length = o.block_size
    · have hlen : o.block_size ≤ fd.length := by
        simp only [List.length_take] at hfull
        omega
      have hnil : acc = [] := by
        rcases hacc with h | h
        · exact h
        · omega
      subst hnil
      simp only [iteration_block_full E o path training offset _ g [] hb hB hfull,
        on_boundary_100 E o path training offset _ g _ hp] at ih ⊢
      have ih' := ih (Or.inl trivial)
      rw [← block_list_step o.block_size fd hB hlen, ← ih']
      cases training <;> cases o.opt_preport <;> simp [classified]
    · have hlen : fd.length < o.block_size := by
        simp only [List.length_take] at hfull
        omega
      have ih' := ih (Or.inr (by rw [List.length_drop]; omega))
      have hd : (fd.drop o.block_size).length / o.block_size = 0 := by
        rw [List.length_drop]
        exact Nat.div_eq_of_lt (by omega)
      rw [hd] at ih'
      simp only [iteration_block_short E o path training offset _ g acc hb hfull,
        classified_append, ih', Nat.div_eq_of_lt hlen, List.range_zero, List.map_nil]
      have hpos : 0 < (fd.take o.block_size).length := by omega
      rw [if_pos hpos]
      rfl

/-- With percentage 100 the property of C9 holds: in block-by-block mode without
header-skip, on a handle that starts empty, the k-th `sceadan_classify` call sees
exactly the B bytes of the k-th block of the file. -/
theorem process_file_block_classified_at_100 {σ : Type} (E : Env σ) (o : Options)
    (path file : List Nat) (s : Session σ) (hB : 0 < o.block_size)
    (hb : o.opt_blocks = true) (hp : o.opt_percentage = 100) (hx : o.opt_omit = false)
    (hs : s.acc = []) :
    ∃ r, process_file E o path FTW_F file s = some r ∧
      classified r.trace = (List.range (file.length / o.block_size)).map
        (fun k => (file.drop (k * o.block_size)).take o.block_size) := by
  obtain ⟨r, hr, hcl⟩ := read_loop_block_classified E o path
    (decide (o.opt_json ≠ 0) || decide (o.opt_train ≠ 0)) hb hp hB file 0
    (seed_generator E o path s.rng).2
  have hr' := process_file_of_loop E o path file s r (by simpa [hx, hs] using hr)
  refine ⟨_, hr', ?_⟩
  show List.filterMap Event.classify_acc _ = _
  rw [filterMap_process_file_trace Event.classify_acc (fun _ => rfl) (fun _ => rfl)
    (fun _ => rfl) (fun _ => rfl) (fun _ => rfl) rfl]
  exact hcl

set_option maxRecDepth 8192 in
/-- C9 at a failing input: block size 1, block-by-block mode, percentage 50, a file
of the two bytes 10 and 20, and a generator whose draws reject the first boundary
and accept the second. The one classification is reported at offset 1, the block
holding the byte 20, but `sceadan_classify` is called with both blocks, 10 and 20,
accumulated: the rejected block was never cleared. -/
theorem process_file_block_keeps_rejected :
    (process_file counterEnv
        { block_size := 1, opt_blocks := true, opt_percentage := 50, opt_seed := 2 }
        [97] FTW_F [10, 20] ⟨0, []⟩).map
      (fun r => (boundary_draws r.trace, decisions r.trace, classified r.trace,
        output_offsets r.trace)) =
      some ([99, 100], [false, true], [[10, 20]], [1]) := by
  decide

/-! ## No leakage between files -/

/-- `process_file` returns for every `typeflag`; for a regular file it leaves the
handle empty, and otherwise it leaves it as it was. -/
theorem process_file_clears {σ : Type} (E : Env σ) (o : Options) (path : List Nat)
    (typeflag : Nat) (file : List Nat) (s : Session σ) :
    ∃ r, process_file E o path typeflag file s = some r ∧
      (typeflag = FTW_F → r.acc = []) ∧ (typeflag ≠ FTW_F → r.acc = s.acc) := by
  by_cases ht : typeflag = FTW_F
  · subst ht
    obtain ⟨r, hr, _⟩ := read_loop_head E o path
      (decide (o.opt_json ≠ 0) || decide (o.opt_train ≠ 0))
      (if o.opt_omit = true then file.drop o.block_size else file)
      (if o.opt_omit = true then wrap64 (0 + o.block_size) else 0)
      (seed_generator E o path s.rng).2 s.acc
    exact ⟨_, process_file_of_loop E o path file s r hr, fun _ => rfl, fun h => absurd rfl h⟩
  · refine ⟨⟨[], s.rng, s.acc, 0⟩, ?_, fun h => absurd h ht, fun _ => rfl⟩
    simp only [process_file, ne_eq, ht, not_false_eq_true, if_true]

/-- C10: for every sequence of files processed by successive `process_file` calls on
a session that starts empty, in every mode and for every percentage, block size and
generator, every call returns, and the handle's accumulated state is empty when each
call starts and when it returns. -/
theorem process_files_no_leak {σ : Type} (E : Env σ) (o : Options)
    (tasks : List (List Nat × Nat × List Nat)) (s : Session σ) (hs : s.acc = []) :
    ∃ runs, process_files E o tasks s = some runs ∧ runs.length = tasks.length ∧
      ∀ sr ∈ runs, sr.1.acc = [] ∧ sr.2.acc = [] := by
  induction tasks generalizing s with
  | nil => exact ⟨[], rfl, rfl, fun _ h => absurd h (List.not_mem_nil _)⟩
  | cons t rest ih =>
    obtain ⟨path, typeflag, file⟩ := t
    obtain ⟨r, hr, hreg, hother⟩ := process_file_clears E o path typeflag file s
    have hacc : r.acc = [] := by
      by_cases ht : typeflag = FTW_F
      · exact hreg ht
      · rw [hother ht, hs]
    obtain ⟨rs, hrs, hlen, hall⟩ := ih ⟨r.rng, r.acc⟩ hacc
    refine ⟨(s, r) :: rs, ?_, ?_, ?_⟩
    · simp only [process_files, hr, hrs]
    · simp only [List.length_cons, hlen]
    · intro sr hsr
      rcases List.mem_cons.mp hsr with h | h
      · rw [h]
        exact ⟨hs, hacc⟩
      · exact hall sr h

/-- Witness for C10: a directory entry followed by two regular files, in
block-by-block mode with percentage 50, the second file ending in a short block. -/
theorem process_files_no_leak_witness :
    ∃ runs, process_files counterEnv
        { block_size := 2, opt_blocks := true, opt_percentage := 50, opt_seed := 98 }
        [([47], 1, []), ([47, 97], FTW_F, [1, 2, 3, 4]), ([47, 98], FTW_F, [5, 6, 7])]
        ⟨0, []⟩ = some runs ∧
      runs.length =
        [([47], 1, ([] : List Nat)), ([47, 97], FTW_F, [1, 2, 3, 4]),
          ([47, 98], FTW_F, [5, 6, 7])].length ∧
      ∀ sr ∈ runs, sr.1.acc = [] ∧ sr.2.acc = [] :=
  process_files_no_leak counterEnv
    { block_size := 2, opt_blocks := true, opt_percentage := 50, opt_seed := 98 }
    [([47], 1, []), ([47, 97], FTW_F, [1, 2, 3, 4]), ([47, 98], FTW_F, [5, 6, 7])]
    ⟨0, []⟩ rfl

/-! ## Counting boundary events -/

theorem boundary_count_append (a b : List Event) :
    boundary_count (a ++ b) = boundary_count a + boundary_count b := by
  simp [boundary_count]

theorem boundary_count_on_boundary {σ : Type} (E : Env σ) (o : Options) (path : List Nat)
    (training : Bool) (offset rd : Nat) (g : σ) (acc : List Nat) :
    boundary_count (on_boundary E o path training offset rd g acc).1 = 1 :=
  (draws_from_on_boundary E o path training offset rd g acc).1

theorem read_loop_boundary_count {σ : Type} (E : Env σ) (o : Options) (path : List Nat)
    (training : Bool) (hB : 0 < o.block_size) (fd : List Nat) (offset : Nat) (g : σ)
    (acc : List Nat) :
    ∃ r, read_loop E o path training (fd.length + 1) fd offset g acc = some r ∧
      boundary_count r.trace =
        if o.opt_blocks = true then fd.length / o.block_size else 1 := by
  refine read_loop_induction E o path training
    (fun fd _ _ _ r => boundary_count r.trace =
      if o.opt_blocks = true then fd.length / o.block_size else 1)
    ?_ ?_ (fd.length + 1) fd offset g acc (Nat.lt_succ_self _)
  · intro fd offset g acc h0
    have hlen : fd.length = 0 := by
      simp only [List.length_take] at h0
      omega
    by_cases hb : o.opt_blocks = true
    · have hne : (fd.take o.block_size).length ≠ o.block_size := by omega
      simp only [iteration_block_short E o path training offset _ g acc hb hne, h0, hb,
        if_true, hlen, Nat.zero_div]
      rfl
    · have hb' : o.opt_blocks = false := by simpa using hb
      simp only [iteration_whole_end E o path training offset _ g acc hb' h0, hb, if_false]
      have h1 := boundary_count_on_boundary E o path training offset 0 g acc
      simp only [boundary_count, List.countP_cons, Event.is_boundary] at h1 ⊢
      simpa using h1
  · intro fd offset g acc r h0 ih
    rw [boundary_count_append, ih]
    by_cases hb : o.opt_blocks = true
    · simp only [hb, if_true]
      by_cases hfull : (fd.take o.block_size).length = o.block_size
      · have hlen : o.block_size ≤ fd.length := by
          simp only [List.length_take] at hfull
          omega
        have h1 := boundary_count_on_boundary E o path training offset
          (fd.take o.block_size).length g (acc ++ fd.take o.block_size)
        rw [iteration_block_full E o path training offset _ g acc hb hB hfull,
          Nat.div_eq_sub_div hB hlen, List.length_drop]
        simp only [boundary_count, List.countP_cons, Event.is_boundary] at h1 ⊢
        simp only [h1]
        simp
        omega
      · have hlen : fd.length < o.block_size := by
          simp only [List.length_take] at hfull
          omega
        have hd : (fd.drop o.block_size).length / o.block_size = 0 := by
          rw [List.length_drop]
          exact Nat.div_eq_of_lt (by omega)
        have hpos : 0 < (fd.take o.block_size).length := by omega
        rw [iteration_block_short E o path training offset _ g acc hb hfull, hd,
          Nat.div_eq_of_lt hlen, if_pos hpos]
        rfl
    · have hb' : o.opt_blocks = false := by simpa using hb
      simp only [hb, if_false]
      rw [iteration_whole_data E o path training offset _ g acc hb' h0]
      rfl

theorem countP_seed_generator {σ : Type} (p : Event → Bool)
    (hrandom : ∀ v, p (Event.random v) = false) (hsrandom : ∀ v, p (Event.srandom v) = false)
    (E : Env σ) (o : Options) (path : List Nat) (g : σ) :
    List.countP p (seed_generator E o path g).1 = 0 := by
  rw [List.countP_eq_zero]
  intro e he
  rcases seed_generator_events E o path g e he with ⟨v, rfl⟩ | ⟨v, rfl⟩
  · simp [hrandom v]
  · simp [hsrandom v]

/-- C11: for every file of length L and block size B > 0 without header-skip, and for
every sampling percentage, `process_file` returns and the number of boundary events
is exactly floor(L/B) in block-by-block mode and exactly 1 in whole-file mode. -/
theorem process_file_boundary_count {σ : Type} (E : Env σ) (o : Options)
    (path file : List Nat) (s : Session σ) (hB : 0 < o.block_size)
    (hx : o.opt_omit = false) :
    ∃ r, process_file E o path FTW_F file s = some r ∧
      boundary_count r.trace =
        if o.opt_blocks = true then file.length / o.block_size else 1 := by
  obtain ⟨r, hr, hcount⟩ := read_loop_boundary_count E o path
    (decide (o.opt_json ≠ 0) || decide (o.opt_train ≠ 0)) hB file 0
    (seed_generator E o path s.rng).2 s.acc
  have hr' := process_file_of_loop E o path file s r (by simpa [hx] using hr)
  refine ⟨_, hr', ?_⟩
  show List.countP Event.is_boundary _ = _
  rw [countP_process_file_trace Event.is_boundary (fun _ => rfl) (fun _ => rfl)
    (fun _ => rfl) rfl,
    countP_seed_generator Event.is_boundary (fun _ => rfl) (fun _ => rfl), Nat.zero_add]
  exact hcount

/-- Witness for C11: a 5-byte file with block size 2 in block-by-block mode at
percentage 50. -/
theorem process_file_boundary_count_witness :
    ∃ r, process_file counterEnv
        { block_size := 2, opt_blocks := true, opt_percentage := 50 } [47] FTW_F
        [1, 2, 3, 4, 5] ⟨0, []⟩ = some r ∧
      boundary_count r.trace = 2 :=
  process_file_boundary_count counterEnv
    { block_size := 2, opt_blocks := true, opt_percentage := 50 } [47] [1, 2, 3, 4, 5]
    ⟨0, []⟩ (by decide) rfl

/-! ## Termination of the read loop -/

theorem read_sizes_append (a b : List Event) :
    read_sizes (a ++ b) = read_sizes a ++ read_sizes b := by
  simp [read_sizes]

theorem read_sizes_on_boundary {σ : Type} (E : Env σ) (o : Options) (path : List Nat)
    (training : Bool) (offset rd : Nat) (g : σ) (acc : List Nat) :
    read_sizes (on_boundary E o path training offset rd g acc).1 = [] := by
  by_cases h : (((E.random g).1 % 100 : Nat) : Int) < o.opt_percentage
  · rw [on_boundary_accept E o path training offset rd g acc h]
    cases training <;> cases o.opt_preport <;> simp [read_sizes]
  · rw [on_boundary_reject E o path training offset rd g acc h]
    simp [read_sizes]

theorem read_sizes_iteration {σ : Type} (E : Env σ) (o : Options) (path : List Nat)
    (training : Bool) (offset : Nat) (buf : List Nat) (g : σ) (acc : List Nat) :
    read_sizes (iteration E o path training offset buf g acc).1 = [buf.length] := by
  have hb := read_sizes_on_boundary E o path training offset buf.length g
    (if 0 < buf.length then acc ++ buf else acc)
  unfold iteration
  by_cases hc : ((o.opt_blocks && decide (buf.length = o.block_size))
      || (!o.opt_blocks && decide (buf.length = 0))) = true
  · simp only [hc, if_true]
    rw [read_sizes_append, hb]
    by_cases h0 : 0 < buf.length <;> simp [h0, read_sizes]
  · simp only [hc]
    by_cases h0 : 0 < buf.length <;> simp [h0, read_sizes]

theorem ceil_div_step (B len : Nat) (hB : 0 < B) (hlen : 0 < len) :
    (len - B + B - 1) / B + 1 = (len + B - 1) / B := by
  have h1 : len + B - 1 = (len - 1) + B := by omega
  rw [h1, Nat.add_div_right _ hB]
  congr 1
  by_cases h : B ≤ len
  · have h2 : len - B + B - 1 = len - 1 := by omega
    rw [h2]
  · rw [Nat.div_eq_of_lt (by omega), Nat.div_eq_of_lt (by omega)]

theorem read_loop_reads {σ : Type} (E : Env σ) (o : Options) (path : List Nat)
    (training : Bool) (hB : 0 < o.block_size) (fd : List Nat) (offset : Nat) (g : σ)
    (acc : List Nat) (h64 : offset + fd.length < 2 ^ 64) :
    ∃ r, read_loop E o path training (fd.length + 1) fd offset g acc = some r ∧
      (∃ sizes, read_sizes r.trace = sizes ++ [0] ∧
        sizes.length = (fd.length + o.block_size - 1) / o.block_size ∧
        (∀ n ∈ sizes, 0 < n ∧ n ≤ o.block_size) ∧ sizes.sum = fd.length) ∧
      r.offset = offset + fd.length ∧
      ∃ pre g1 acc1, r.trace =
        pre ++ (iteration E o path training (offset + fd.length) [] g1 acc1).1 := by
  suffices key : ∃ r, read_loop E o path training (fd.length + 1) fd offset g acc = some r ∧
      (offset + fd.length < 2 ^ 64 →
        (∃ sizes, read_sizes r.trace = sizes ++ [0] ∧
          sizes.length = (fd.length + o.block_size - 1) / o.block_size ∧
          (∀ n ∈ sizes, 0 < n ∧ n ≤ o.block_size) ∧ sizes.sum = fd.length) ∧
        r.offset = offset + fd.length ∧
        ∃ pre g1 acc1, r.trace =
          pre ++ (iteration E o path training (offset + fd.length) [] g1 acc1).1) by
    obtain ⟨r, hr, hP⟩ := key
    exact ⟨r, hr, hP h64⟩
  refine read_loop_induction E o path training
    (fun fd offset _ _ r => offset + fd.length < 2 ^ 64 →
      (∃ sizes, read_sizes r.trace = sizes ++ [0] ∧
        sizes.length = (fd.length + o.block_size - 1) / o.block_size ∧
        (∀ n ∈ sizes, 0 < n ∧ n ≤ o.block_size) ∧ sizes.sum = fd.length) ∧
      r.offset = offset + fd.length ∧
      ∃ pre g1 acc1, r.trace =
        pre ++ (iteration E o path training (offset + fd.length) [] g1 acc1).1)
    ?_ ?_ (fd.length + 1) fd offset g acc (Nat.lt_succ_self _)
  · intro fd offset g acc h0 _
    have hnil : fd = [] := by
      simp only [List.length_take] at h0
      exact List.length_eq_zero.mp (by omega)
    subst hnil
    refine ⟨⟨[], ?_, ?_, ?_, rfl⟩, rfl, [], g, acc, ?_⟩
    · simp only [read_sizes_iteration, List.take_nil, List.length_nil, List.nil_append]
    · simp only [List.length_nil, Nat.zero_add]
      exact (Nat.div_eq_of_lt (by omega)).symm
    · intro n hn
      exact absurd hn (List.not_mem_nil _)
    · simp only [List.take_nil, List.length_nil, Nat.add_zero, List.nil_append]
  · intro fd offset g acc r h0 ih h64
    have hrd : (fd.take o.block_size).length + (fd.drop o.block_size).length = fd.length := by
      simp only [List.length_take, List.length_drop]
      omega
    have hle : (fd.take o.block_size).length ≤ o.block_size := by
      simp only [List.length_take]
      omega
    have hpos : 0 < fd.length := by
      simp only [List.length_take] at h0
      omega
    have hw : wrap64 (offset + (fd.take o.block_size).length) =
        offset + (fd.take o.block_size).length := wrap64_of_lt (by omega)
    rw [hw] at ih
    obtain ⟨⟨sizes, hs1, hs2, hs3, hs4⟩, hoff, pre, g1, acc1, htr⟩ := ih (by omega)
    refine ⟨⟨(fd.take o.block_size).length :: sizes, ?_, ?_, ?_, ?_⟩, ?_, ?_⟩
    · simp only [read_sizes_append, read_sizes_iteration, hs1, List.singleton_append,
        List.cons_append, List.nil_append]
    · rw [List.length_cons, hs2, List.length_drop]
      exact ceil_div_step o.block_size fd.length hB hpos
    · intro n hn
      rcases List.mem_cons.mp hn with h | h
      · rw [h]
        exact ⟨by omega, hle⟩
      · exact hs3 n h
    · rw [List.sum_cons, hs4]
      exact hrd
    · show r.offset = offset + fd.length
      rw [hoff]
      omega
    · refine ⟨(iteration E o path training offset (fd.take o.block_size) g acc).1 ++ pre,
        g1, acc1, ?_⟩
      have he : offset + (fd.take o.block_size).length + (fd.drop o.block_size).length =
          offset + fd.length := by omega
      rw [he] at htr
      simp only [htr, List.append_assoc]

/-- C19: for every file of length L (below 2^64) and block size B > 0 without
header-skip, `process_file` returns: it performs exactly ceil(L/B) + 1 reads, the
last of which returns zero bytes and every earlier one between 1 and B bytes, L in
all; the body of the loop, boundary check included, is run for that zero-byte read
before the loop exits, in either mode; and the offset variable ends equal to L. -/
theorem process_file_terminates {σ : Type} (E : Env σ) (o : Options)
    (path file : List Nat) (s : Session σ) (hB : 0 < o.block_size)
    (hx : o.opt_omit = false) (h64 : file.length < 2 ^ 64) :
    ∃ r, process_file E o path FTW_F file s = some r ∧
      (∃ sizes, read_sizes r.trace = sizes ++ [0] ∧
        sizes.length = (file.length + o.block_size - 1) / o.block_size ∧
        (∀ n ∈ sizes, 0 < n ∧ n ≤ o.block_size) ∧ sizes.sum = file.length) ∧
      (read_sizes r.trace).length = (file.length + o.block_size - 1) / o.block_size + 1 ∧
      (∃ pre g1 acc1, r.trace = pre ++ (iteration E o path
          (decide (o.opt_json ≠ 0) || decide (o.opt_train ≠ 0)) file.length [] g1 acc1).1
          ++ [Event.clear]) ∧
      r.offset = file.length := by
  obtain ⟨r, hr, ⟨sizes, hs1, hs2, hs3, hs4⟩, hoff, pre, g1, acc1, htr⟩ :=
    read_loop_reads E o path (decide (o.opt_json ≠ 0) || decide (o.opt_train ≠ 0)) hB file 0
      (seed_generator E o path s.rng).2 s.acc (by omega)
  have hr' := process_file_of_loop E o path file s r (by simpa [hx] using hr)
  have hsizes : read_sizes ((seed_generator E o path s.rng).1
          ++ (if o.opt_json ≠ 0 then [Event.dump_json o.opt_json] else [])
          ++ (if o.opt_train ≠ 0 then [Event.dump_nodes o.opt_train] else [])
          ++ (if o.opt_omit = true then [Event.lseek o.block_size] else [])
          ++ r.trace ++ [Event.clear]) = sizes ++ [0] := by
    show List.filterMap Event.read_size _ = _
    rw [filterMap_process_file_trace Event.read_size (fun _ => rfl) (fun _ => rfl)
      (fun _ => rfl) (fun _ => rfl) (fun _ => rfl) rfl]
    exact hs1
  refine ⟨_, hr', ⟨sizes, hsizes, hs2, hs3, hs4⟩, ?_, ?_, ?_⟩
  · rw [hsizes, List.length_append, hs2]
    rfl
  · rw [Nat.zero_add] at htr
    refine ⟨(seed_generator E o path s.rng).1
          ++ (if o.opt_json ≠ 0 then [Event.dump_json o.opt_json] else [])
          ++ (if o.opt_train ≠ 0 then [Event.dump_nodes o.opt_train] else [])
          ++ (if o.opt_omit = true then [Event.lseek o.block_size] else [])
          ++ pre, g1, acc1, ?_⟩
    simp only [htr, List.append_assoc]
  · show r.offset = file.length
    rw [hoff, Nat.zero_add]

/-- Witness for C19: a 5-byte file with block size 2 is read in 3 + 1 reads. -/
theorem process_file_terminates_witness :
    ∃ r, process_file counterEnv { block_size := 2 } [47] FTW_F [1, 2, 3, 4, 5] ⟨0, []⟩
        = some r ∧
      (∃ sizes, read_sizes r.trace = sizes ++ [0] ∧
        sizes.length = ([1, 2, 3, 4, 5].length + ({ block_size := 2 } : Options).block_size - 1)
          / ({ block_size := 2 } : Options).block_size ∧
        (∀ n ∈ sizes, 0 < n ∧ n ≤ ({ block_size := 2 } : Options).block_size) ∧
        sizes.sum = [1, 2, 3, 4, 5].length) ∧
      (read_sizes r.trace).length =
        ([1, 2, 3, 4, 5].length + ({ block_size := 2 } : Options).block_size - 1)
          / ({ block_size := 2 } : Options).block_size + 1 ∧
      (∃ pre g1 acc1, r.trace = pre ++ (iteration counterEnv { block_size := 2 } [47]
          (decide (({ block_size := 2 } : Options).opt_json ≠ 0)
            || decide (({ block_size := 2 } : Options).opt_train ≠ 0))
          [1, 2, 3, 4, 5].length [] g1 acc1).1 ++ [Event.clear]) ∧
      r.offset = [1, 2, 3, 4, 5].length :=
  process_file_terminates counterEnv { block_size := 2 } [47] [1, 2, 3, 4, 5] ⟨0, []⟩
    (by decide) rfl (by decide)

/-! ## The `-P` side-report -/

/-- C17 at a failing input: whole-file mode with `-P`, percentage 100 and a 3-byte
file. The one result is printed with offset 0, but the `-P` line is `3-3`, the
offset variable at end of stream and the same plus the zero bytes just read, where
the claim gives `0-3`. -/
theorem process_file_preport_whole_file :
    (process_file counterEnv { opt_preport := true } [47] FTW_F [1, 2, 3] ⟨0, []⟩).map
      (fun r => (output_offsets r.trace, preports r.trace)) = some ([0], [(3, 3)]) := by
  decide

theorem preports_append (a b : List Event) :
    preports (a ++ b) = preports a ++ preports b := by
  simp [preports]

theorem decisions_append (a b : List Event) :
    decisions (a ++ b) = decisions a ++ decisions b := by
  simp [decisions]

theorem preport_on_boundary {σ : Type} (E : Env σ) (o : Options) (path : List Nat)
    (training : Bool) (offset rd : Nat) (g : σ) (acc : List Nat)
    (hP : o.opt_preport = true) (h64 : offset + rd < 2 ^ 64) :
    (preports (on_boundary E o path training offset rd g acc).1).length =
        (decisions (on_boundary E o path training offset rd g acc).1).count true ∧
      (∀ ab ∈ preports (on_boundary E o path training offset rd g acc).1,
        ab.1 = offset ∧ ab.2 = offset + rd) ∧
      (o.opt_blocks = true → training = false →
        output_offsets (on_boundary E o path training offset rd g acc).1 =
          (preports (on_boundary E o path training offset rd g acc).1).map Prod.fst) := by
  have hw : wrap64 (offset + rd) = offset + rd := wrap64_of_lt h64
  by_cases h : (((E.random g).1 % 100 : Nat) : Int) < o.opt_percentage
  · rw [on_boundary_accept E o path training offset rd g acc h, hP, hw]
    cases training <;> cases hb : o.opt_blocks <;>
      simp [preports, decisions, output_offsets]
  · rw [on_boundary_reject E o path training offset rd g acc h]
    simp [preports, decisions, output_offsets]

theorem preport_iteration {σ : Type} (E : Env σ) (o : Options) (path : List Nat)
    (training : Bool) (offset : Nat) (buf : List Nat) (g : σ) (acc : List Nat)
    (hB : 0 < o.block_size) (hP : o.opt_preport = true)
    (h64 : offset + buf.length < 2 ^ 64) :
    (preports (iteration E o path training offset buf g acc).1).length =
        (decisions (iteration E o path training offset buf g acc).1).count true ∧
      (o.opt_blocks = true → ∀ ab ∈ preports (iteration E o path training offset buf g acc).1,
        ab.2 = ab.1 + o.block_size) ∧
      (o.opt_blocks = true → training = false →
        output_offsets (iteration E o path training offset buf g acc).1 =
          (preports (iteration E o path training offset buf g acc).1).map Prod.fst) := by
  by_cases hb : o.opt_blocks = true
  · by_cases hfull : buf.length = o.block_size
    · obtain ⟨h1, h2, h3⟩ := preport_on_boundary E o path training offset buf.length g
        (acc ++ buf) hP h64
      rw [iteration_block_full E o path training offset buf g acc hb hB hfull]
      refine ⟨?_, ?_, ?_⟩
      · simpa [preports, decisions] using h1
      · intro _ ab hab
        have hab' : ab ∈ preports (on_boundary E o path training offset buf.length g
            (acc ++ buf)).1 := by simpa [preports] using hab
        obtain ⟨e1, e2⟩ := h2 ab hab'
        rw [e2, e1, hfull]
      · intro _ ht
        have := h3 hb ht
        simpa [preports, output_offsets] using this
    · rw [iteration_block_short E o path training offset buf g acc hb hfull]
      by_cases h0 : 0 < buf.length <;> simp [h0, preports, decisions, output_offsets]
  · have hb' : o.opt_blocks = false := by simpa using hb
    refine ⟨?_, fun h => absurd h hb, fun h => absurd h hb⟩
    by_cases h0 : buf.length = 0
    · obtain ⟨h1, _, _⟩ := preport_on_boundary E o path training offset 0 g acc hP (by omega)
      rw [iteration_whole_end E o path training offset buf g acc hb' h0]
      simpa [preports, decisions] using h1
    · rw [iteration_whole_data E o path training offset buf g acc hb' h0]
      simp [preports, decisions]

theorem read_loop_preport {σ : Type} (E : Env σ) (o : Options) (path : List Nat)
    (training : Bool) (hB : 0 < o.block_size) (hP : o.opt_preport = true)
    (fd : List Nat) (offset : Nat) (g : σ) (acc : List Nat)
    (h64 : offset + fd.length < 2 ^ 64) :
    ∃ r, read_loop E o path training (fd.length + 1) fd offset g acc = some r ∧
      (preports r.trace).length = (decisions r.trace).count true ∧
      (o.opt_blocks = true → ∀ ab ∈ preports r.trace, ab.2 = ab.1 + o.block_size) ∧
      (o.opt_blocks = true → training = false →
        output_offsets r.trace = (preports r.trace).map Prod.fst) := by
  suffices key : ∃ r, read_loop E o path training (fd.length + 1) fd offset g acc = some r ∧
      (offset + fd.length < 2 ^ 64 →
        (preports r.trace).length = (decisions r.trace).count true ∧
        (o.opt_blocks = true → ∀ ab ∈ preports r.trace, ab.2 = ab.1 + o.block_size) ∧
        (o.opt_blocks = true → training = false →
          output_offsets r.trace = (preports r.trace).map Prod.fst)) by
    obtain ⟨r, hr, hP'⟩ := key
    exact ⟨r, hr, hP' h64⟩
  refine read_loop_induction E o path training
    (fun fd offset _ _ r => offset + fd.length < 2 ^ 64 →
      (preports r.trace).length = (decisions r.trace).count true ∧
      (o.opt_blocks = true → ∀ ab ∈ preports r.trace, ab.2 = ab.1 + o.block_size) ∧
      (o.opt_blocks = true → training = false →
        output_offsets r.trace = (preports r.trace).map Prod.fst))
    ?_ ?_ (fd.length + 1) fd offset g acc (Nat.lt_succ_self _)
  · intro fd offset g acc h0 _
    exact preport_iteration E o path training offset _ g acc hB hP (by omega)
  · intro fd offset g acc r h0 ih h64
    have hrd : (fd.take o.block_size).length + (fd.drop o.block_size).length = fd.length := by
      simp only [List.length_take, List.length_drop]
      omega
    obtain ⟨a1, a2, a3⟩ := preport_iteration E o path training offset (fd.take o.block_size)
      g acc hB hP (by omega)
    obtain ⟨b1, b2, b3⟩ := ih (by rw [wrap64_of_lt (by omega)]; omega)
    refine ⟨?_, ?_, ?_⟩
    · show (preports (_ ++ r.trace)).length = (decisions (_ ++ r.trace)).count true
      rw [preports_append, decisions_append, List.length_append, List.count_append, a1, b1]
    · intro hb ab hab
      have hab' : ab ∈ preports (iteration E o path training offset (fd.take o.block_size)
          g acc).1 ++ preports r.trace := by
        rw [← preports_append]
        exact hab
      rcases List.mem_append.mp hab' with h | h
      · exact a2 hb ab h
      · exact b2 hb ab h
    · intro hb ht
      show output_offsets (_ ++ r.trace) = (preports (_ ++ r.trace)).map Prod.fst
      rw [output_offsets_append, preports_append, List.map_append, a3 hb ht, b3 hb ht]

/-- What holds of the `-P` side-report: with `-P` and without header-skip, for
every file (below 2^64 bytes) and block size B > 0, one line is written for every
accepted boundary event and none for a rejected one, whether or not a training
side-channel is active; in block-by-block mode every line is `start-(start+B)`, and
without training the starts are the offsets of the results printed. -/
theorem process_file_preport_block {σ : Type} (E : Env σ) (o : Options)
    (path file : List Nat) (s : Session σ) (hB : 0 < o.block_size)
    (hP : o.opt_preport = true) (hx : o.opt_omit = false) (h64 : file.length < 2 ^ 64) :
    ∃ r, process_file E o path FTW_F file s = some r ∧
      (preports r.trace).length = (decisions r.trace).count true ∧
      (o.opt_blocks = true → ∀ ab ∈ preports r.trace, ab.2 = ab.1 + o.block_size) ∧
      (o.opt_blocks = true → o.opt_json = 0 → o.opt_train = 0 →
        output_offsets r.trace = (preports r.trace).map Prod.fst) := by
  obtain ⟨r, hr, h1, h2, h3⟩ := read_loop_preport E o path
    (decide (o.opt_json ≠ 0) || decide (o.opt_train ≠ 0)) hB hP file 0
    (seed_generator E o path s.rng).2 s.acc (by omega)
  have hr' := process_file_of_loop E o path file s r (by simpa [hx] using hr)
  have hpre : preports ((seed_generator E o path s.rng).1
          ++ (if o.opt_json ≠ 0 then [Event.dump_json o.opt_json] else [])
          ++ (if o.opt_train ≠ 0 then [Event.dump_nodes o.opt_train] else [])
          ++ (if o.opt_omit = true then [Event.lseek o.block_size] else [])
          ++ r.trace ++ [Event.clear]) = preports r.trace :=
    filterMap_process_file_trace Event.preport_range (fun _ => rfl) (fun _ => rfl)
      (fun _ => rfl) (fun _ => rfl) (fun _ => rfl) rfl E o path s.rng r.trace
  have hdec : decisions ((seed_generator E o path s.rng).1
          ++ (if o.opt_json ≠ 0 then [Event.dump_json o.opt_json] else [])
          ++ (if o.opt_train ≠ 0 then [Event.dump_nodes o.opt_train] else [])
          ++ (if o.opt_omit = true then [Event.lseek o.block_size] else [])
          ++ r.trace ++ [Event.clear]) = decisions r.trace :=
    filterMap_process_file_trace Event.decision (fun _ => rfl) (fun _ => rfl)
      (fun _ => rfl) (fun _ => rfl) (fun _ => rfl) rfl E o path s.rng r.trace
  have hout : output_offsets ((seed_generator E o path s.rng).1
          ++ (if o.opt_json ≠ 0 then [Event.dump_json o.opt_json] else [])
          ++ (if o.opt_train ≠ 0 then [Event.dump_nodes o.opt_train] else [])
          ++ (if o.opt_omit = true then [Event.lseek o.block_size] else [])
          ++ r.trace ++ [Event.clear]) = output_offsets r.trace :=
    filterMap_process_file_trace Event.output_offset (fun _ => rfl) (fun _ => rfl)
      (fun _ => rfl) (fun _ => rfl) (fun _ => rfl) rfl E o path s.rng r.trace
  refine ⟨_, hr', ?_, ?_, ?_⟩
  · rw [hpre, hdec]
    exact h1
  · intro hb ab hab
    rw [hpre] at hab
    exact h2 hb ab hab
  · intro hb hj ht
    rw [hpre, hout]
    exact h3 hb (by simp [hj, ht])

/-! ## The result line -/

/-- Below 2^63 `do_output` prints the offset itself, as the claim describes. -/
theorem do_output_eq_spec (name_for_type : Int → List Nat) (path : List Nat) (offset : Nat)
    (file_type : Int) (h : offset < 2 ^ 63) :
    do_output name_for_type path offset file_type =
      do_output_spec name_for_type path offset file_type := by
  have hmod : offset % 2 ^ 64 = offset := Nat.mod_eq_of_lt (by omega)
  have hnn : ¬ ((offset : Nat) : Int) < 0 := by omega
  simp only [do_output, do_output_spec, int64_of_uint64, hmod, h, if_true, print_signed, hnn,
    if_false, Int.natAbs_ofNat]

/-- C16 at a failing input: for the offset 2^63 `do_output` prints the negative
number -9223372036854775808, not the offset 9223372036854775808, because the
`uint64_t` is printed with the signed conversion `PRId64`. -/
theorem do_output_prints_negative :
    do_output (fun _ => [97]) [47] 9223372036854775808 0 =
        [45, 57, 50, 50, 51, 51, 55, 50, 48, 51, 54, 56, 53, 52, 55, 55, 53, 56, 48, 56,
          32, 97, 32, 35, 32, 47, 10] ∧
      do_output_spec (fun _ => [97]) [47] 9223372036854775808 0 =
        [57, 50, 50, 51, 51, 55, 50, 48, 51, 54, 56, 53, 52, 55, 55, 53, 56, 48, 56,
          32, 97, 32, 35, 32, 47, 10] := by
  decide

/-! ## Training side-channels -/

theorem on_boundary_training {σ : Type} (E : Env σ) (o : Options) (path : List Nat)
    (offset rd : Nat) (g : σ) (acc : List Nat) :
    on_boundary E o path true offset rd g acc =
      (((on_boundary E o path false offset rd g acc).1).filter (fun e => !e.is_output),
        (on_boundary E o path false offset rd g acc).2.1,
        (on_boundary E o path false offset rd g acc).2.2) := by
  by_cases h : (((E.random g).1 % 100 : Nat) : Int) < o.opt_percentage
  · rw [on_boundary_accept E o path true offset rd g acc h,
      on_boundary_accept E o path false offset rd g acc h]
    cases o.opt_preport <;> simp
  · rw [on_boundary_reject E o path true offset rd g acc h,
      on_boundary_reject E o path false offset rd g acc h]
    simp

theorem iteration_training {σ : Type} (E : Env σ) (o : Options) (path : List Nat)
    (offset : Nat) (buf : List Nat) (g : σ) (acc : List Nat) :
    iteration E o path true offset buf g acc =
      (((iteration E o path false offset buf g acc).1).filter (fun e => !e.is_output),
        (iteration E o path false offset buf g acc).2.1,
        (iteration E o path false offset buf g acc).2.2) := by
  unfold iteration
  by_cases hc : ((o.opt_blocks && decide (buf.length = o.block_size))
      || (!o.opt_blocks && decide (buf.length = 0))) = true
  · simp only [hc, if_true, on_boundary_training E o path offset buf.length g _]
    by_cases h0 : 0 < buf.length <;> simp [h0]
  · simp only [hc]
    by_cases h0 : 0 < buf.length <;> simp [h0]

theorem read_loop_training {σ : Type} (E : Env σ) (o : Options) (path : List Nat)
    (fuel : Nat) (fd : List Nat) (offset : Nat) (g : σ) (acc : List Nat) :
    read_loop E o path true fuel fd offset g acc =
      (read_loop E o path false fuel fd offset g acc).map Run.without_output := by
  induction fuel generalizing fd offset g acc with
  | zero => rfl
  | succ n ih =>
    have hit := iteration_training E o path offset (fd.take o.block_size) g acc
    simp only [read_loop]
    by_cases h0 : (fd.take o.block_size).length = 0
    · simp only [h0, if_true, Option.map_some']
      rw [hit]
      rfl
    · simp only [h0, if_false]
      rw [hit, ih]
      cases read_loop E o path false n (fd.drop o.block_size)
          (wrap64 (offset + (fd.take o.block_size).length))
          (iteration E o path false offset (fd.take o.block_size) g acc).2.1
          (iteration E o path false offset (fd.take o.block_size) g acc).2.2 with
      | none => rfl
      | some r => simp [Run.without_output]

theorem read_loop_class_irrel {σ : Type} (E : Env σ) (o : Options) (j t : Int)
    (path : List Nat) (training : Bool) (fuel : Nat) (fd : List Nat) (offset : Nat) (g : σ)
    (acc : List Nat) :
    read_loop E { o with opt_json := j, opt_train := t } path training fuel fd offset g acc =
      read_loop E o path training fuel fd offset g acc := by
  induction fuel generalizing fd offset g acc with
  | zero => rfl
  | succ n ih =>
    have hit : ∀ buf, iteration E { o with opt_json := j, opt_train := t } path training
        offset buf g acc = iteration E o path training offset buf g acc := fun _ => rfl
    simp only [read_loop, hit]
    rw [ih]

theorem calls_without_output (tr : List Event) :
    calls (tr.filter (fun e => !e.is_output)) = calls tr := by
  simp only [calls, List.filter_filter]
  apply List.filter_congr
  intro e _
  cases e <;> rfl

theorem output_offsets_without_output (tr : List Event) :
    output_offsets (tr.filter (fun e => !e.is_output)) = [] := by
  simp only [output_offsets]
  rw [List.filterMap_eq_nil_iff]
  intro e he
  have hq := (List.mem_filter.mp he).2
  cases e <;> first | rfl | simp at hq

/-- With a non-zero class in `opt_json` or `opt_train`, `process_file` prints no
result through `do_output` and makes the same update calls, boundary decisions and
classify calls as the run with both options 0. -/
theorem process_file_training_on {σ : Type} (E : Env σ) (o : Options) (j t : Int)
    (path file : List Nat) (s : Session σ) (h : j ≠ 0 ∨ t ≠ 0) :
    ∃ r1 r0,
      process_file E { o with opt_json := j, opt_train := t } path FTW_F file s = some r1 ∧
      process_file E { o with opt_json := 0, opt_train := 0 } path FTW_F file s = some r0 ∧
      output_offsets r1.trace = [] ∧ calls r1.trace = calls r0.trace := by
  obtain ⟨r0, hr0, _⟩ := read_loop_head E o path false
    (if o.opt_omit = true then file.drop o.block_size else file)
    (if o.opt_omit = true then wrap64 (0 + o.block_size) else 0)
    (seed_generator E o path s.rng).2 s.acc
  have hr1 : read_loop E o path true
      ((if o.opt_omit = true then file.drop o.block_size else file).length + 1)
      (if o.opt_omit = true then file.drop o.block_size else file)
      (if o.opt_omit = true then wrap64 (0 + o.block_size) else 0)
      (seed_generator E o path s.rng).2 s.acc = some (Run.without_output r0) := by
    rw [read_loop_training, hr0]
    rfl
  have htrue : (decide (j ≠ 0) || decide (t ≠ 0)) = true := by
    rcases h with h | h <;> simp [h]
  have hp1 := process_file_of_loop E { o with opt_json := j, opt_train := t } path file s
    (Run.without_output r0) (by
      rw [read_loop_class_irrel]
      simp only [htrue]
      exact hr1)
  have hp0 := process_file_of_loop E { o with opt_json := 0, opt_train := 0 } path file s r0 (by
      rw [read_loop_class_irrel]
      simpa using hr0)
  refine ⟨_, _, hp1, hp0, ?_, ?_⟩
  · show List.filterMap Event.output_offset _ = []
    rw [filterMap_process_file_trace Event.output_offset (fun _ => rfl) (fun _ => rfl)
      (fun _ => rfl) (fun _ => rfl) (fun _ => rfl) rfl]
    exact output_offsets_without_output r0.trace
  · show List.filter Event.is_call _ = List.filter Event.is_call _
    rw [filter_process_file_trace Event.is_call (fun _ => rfl) (fun _ => rfl)
      (fun _ => rfl) (fun _ => rfl) (fun _ => rfl) rfl,
      filter_process_file_trace Event.is_call (fun _ => rfl) (fun _ => rfl)
      (fun _ => rfl) (fun _ => rfl) (fun _ => rfl) rfl]
    exact calls_without_output r0.trace

/-- C15 (amended): for every class argument accepted by `-j` or `-t` that yields a
non-zero class (a class name, or an all-digits class number for which the `int`
that `atoi` returns is not 0), `process_file` with that class in `opt_json`, or in
`opt_train`, returns and prints
no Classification Result through `do_output`, while its sequence of
`sceadan_update` calls, boundary decisions and `sceadan_classify` calls is that of
the same run without the training option. -/
theorem process_file_training {σ : Type} (E : Env σ) (o : Options)
    (lookup : List Nat → Int) (name : List Nat) (c : Int) (path file : List Nat)
    (s : Session σ) (hc : type_for_name lookup name = some c)
    (hnz : alldigits name = true → atoi name ≠ 0) :
    ∃ rj rt r0,
      process_file E { o with opt_json := c, opt_train := 0 } path FTW_F file s = some rj ∧
      process_file E { o with opt_json := 0, opt_train := c } path FTW_F file s = some rt ∧
      process_file E { o with opt_json := 0, opt_train := 0 } path FTW_F file s = some r0 ∧
      output_offsets rj.trace = [] ∧ output_offsets rt.trace = [] ∧
      calls rj.trace = calls r0.trace ∧ calls rt.trace = calls r0.trace := by
  have hne : c ≠ 0 := by
    unfold type_for_name at hc
    by_cases hd : alldigits name = true
    · simp only [hd, if_true, Option.some.injEq] at hc
      rw [← hc]
      exact hnz hd
    · simp only [hd, Bool.false_eq_true, if_false] at hc
      by_cases hl : lookup name > 0
      · simp only [hl, if_true, Option.some.injEq] at hc
        omega
      · simp [hl] at hc
  obtain ⟨rj, r0, hj, h0, hoj, hcj⟩ :=
    process_file_training_on E o c 0 path file s (Or.inl hne)
  obtain ⟨rt, r0t, ht, h0t, hot, hct⟩ :=
    process_file_training_on E o 0 c path file s (Or.inr hne)
  have he : r0t = r0 := Option.some.inj (h0t.symm.trans h0)
  rw [he] at hct
  exact ⟨rj, rt, r0, hj, ht, h0, hoj, hot, hcj, hct⟩

/-- Witness for C15: the class argument `12` on a 3-byte file. -/
theorem process_file_training_witness :
    ∃ rj rt r0,
      process_file counterEnv { ({} : Options) with opt_json := 12, opt_train := 0 }
        [47] FTW_F [1, 2, 3] ⟨0, []⟩ = some rj ∧
      process_file counterEnv { ({} : Options) with opt_json := 0, opt_train := 12 }
        [47] FTW_F [1, 2, 3] ⟨0, []⟩ = some rt ∧
      process_file counterEnv { ({} : Options) with opt_json := 0, opt_train := 0 }
        [47] FTW_F [1, 2, 3] ⟨0, []⟩ = some r0 ∧
      output_offsets rj.trace = [] ∧ output_offsets rt.trace = [] ∧
      calls rj.trace = calls r0.trace ∧ calls rt.trace = calls r0.trace :=
  process_file_training counterEnv {} (fun _ => 0) [49, 50] 12 [47] [1, 2, 3] ⟨0, []⟩
    (by decide) (by decide)

/-- C15 as stated fails: the class argument `0` is all digits, so `type_for_name`
accepts it and returns 0; `opt_json` is then 0, no training side-channel is set up,
and `process_file` prints the Classification Result (offset 0) through `do_output`
where the claim gives no result line. -/
theorem process_file_training_counterexample :
    (type_for_name (fun _ => 0) [48]).bind
        (fun c => (process_file counterEnv { opt_json := c } [47] FTW_F [1, 2, 3] ⟨0, []⟩).map
          (fun r => output_offsets r.trace)) = some [0] ∧
      ¬ (type_for_name (fun _ => 0) [48]).bind
        (fun c => (process_file counterEnv { opt_json := c } [47] FTW_F [1, 2, 3] ⟨0, []⟩).map
          (fun r => output_offsets r.trace)) = some [] := by
  decide

/-- The class number that `type_for_name` returns is the `int` of `atoi`: the
all-digits argument `4294967296` is accepted and yields the class 0, like the
argument `0`, and `2147483648` yields a negative class. -/
theorem type_for_name_wraps :
    type_for_name (fun _ => 0) [52, 50, 57, 52, 57, 54, 55, 50, 57, 54] = some 0 ∧
      type_for_name (fun _ => 0) [50, 49, 52, 55, 52, 56, 51, 54, 52, 56] =
        some (-2147483648) ∧
      type_for_name (fun _ => 0) [49, 50] = some 12 := by
  decide

/-- The value `atoi` returns is an `int`. -/
theorem atoi_int_range (str : List Nat) : -2 ^ 31 ≤ atoi str ∧ atoi str < 2 ^ 31 := by
  simp only [atoi, int_of_long]
  omega

/-- With the class argument `4294967296` the run is the one of class 0: the
Classification Result is printed through `do_output`. -/
theorem process_file_training_wrapped_class :
    (type_for_name (fun _ => 0) [52, 50, 57, 52, 57, 54, 55, 50, 57, 54]).bind
        (fun c => (process_file counterEnv { opt_json := c } [47] FTW_F [1, 2, 3] ⟨0, []⟩).map
          (fun r => output_offsets r.trace)) = some [0] := by
  decide

/-! ## Failure paths -/

theorem read_loop_sys_no_error {σ : Type} (E : Env σ) (o : Options) (path : List Nat)
    (training : Bool) (fuel : Nat) (fd : List Nat) (offset : Nat) (g : σ) (acc : List Nat) :
    read_loop_sys E o path training fuel none fd offset g acc =
      (read_loop E o path training fuel fd offset g acc).map Outcome.returned := by
  induction fuel generalizing fd offset g acc with
  | zero => rfl
  | succ n ih =>
    simp only [read_loop_sys, read_loop, Option.map_none', reduceCtorEq, if_false]
    by_cases h0 : (fd.take o.block_size).length = 0
    · simp only [h0, if_true, Option.map_some']
    · simp only [h0, if_false]
      rw [ih]
      cases read_loop E o path training n (fd.drop o.block_size)
          (wrap64 (offset + (fd.take o.block_size).length))
          (iteration E o path training offset (fd.take o.block_size) g acc).2.1
          (iteration E o path training offset (fd.take o.block_size) g acc).2.2 with
      | none => rfl
      | some r => rfl

/-- When no call fails, `process_file_sys` is `process_file`. -/
theorem process_file_sys_no_error {σ : Type} (E : Env σ) (o : Options) (path : List Nat)
    (typeflag : Nat) (file : List Nat) (s : Session σ) :
    process_file_sys E o {} path typeflag file s =
      (process_file E o path typeflag file s).map Outcome.returned := by
  unfold process_file_sys process_file
  by_cases ht : typeflag = FTW_F
  · simp only [ht, ne_eq, not_true_eq_false, if_false, Bool.false_eq_true, and_false,
      read_loop_sys_no_error]
    cases read_loop E o path (decide (o.opt_json ≠ 0) || decide (o.opt_train ≠ 0))
        ((if o.opt_omit = true then file.drop o.block_size else file).length + 1)
        (if o.opt_omit = true then file.drop o.block_size else file)
        (if o.opt_omit = true then wrap64 (0 + o.block_size) else 0)
        (seed_generator E o path s.rng).2 s.acc with
    | none => rfl
    | some r => rfl
  · simp only [ne_eq, ht, not_false_eq_true, if_true, Option.map_some']

/-- Whenever `open` fails, for a path other than `-`, the process is ended with
exit status 0 before any read. -/
theorem process_file_sys_open_fails {σ : Type} (E : Env σ) (o : Options) (sys : Sys)
    (path file : List Nat) (s : Session σ) (hp : path ≠ [45])
    (hf : sys.open_fails = true) :
    process_file_sys E o sys path FTW_F file s =
      some (Outcome.exited 0 Failure.open_failed
        ((seed_generator E o path s.rng).1
          ++ (if o.opt_json ≠ 0 then [Event.dump_json o.opt_json] else [])
          ++ (if o.opt_train ≠ 0 then [Event.dump_nodes o.opt_train] else []))) := by
  unfold process_file_sys
  simp only [ne_eq, not_true_eq_false, if_false, hp, not_false_eq_true, hf, and_self, if_true]

/-- Whenever the first `read` returns -1, the process is ended with exit status 0. -/
theorem process_file_sys_read_fails {σ : Type} (E : Env σ) (o : Options)
    (path file : List Nat) (s : Session σ) :
    process_file_sys E o { good_reads := some 0 } path FTW_F file s =
      some (Outcome.exited 0 Failure.read_failed
        ((seed_generator E o path s.rng).1
          ++ (if o.opt_json ≠ 0 then [Event.dump_json o.opt_json] else [])
          ++ (if o.opt_train ≠ 0 then [Event.dump_nodes o.opt_train] else [])
          ++ (if o.opt_omit = true then [Event.lseek o.block_size] else []))) := by
  unfold process_file_sys
  simp only [ne_eq, not_true_eq_false, if_false, Bool.false_eq_true, and_false, read_loop_sys,
    if_true, List.append_nil]

/-- C12 at failing inputs: when `open` fails, and when a `read` returns an error
(here after one good read), `process_file` ends the process with exit status 0, the
status of normal completion, where the claim gives a status different from 0; only
the `malloc` failure exits with status 1. In each case nothing is read, accumulated,
classified or printed after the failing call. -/
theorem process_file_sys_exit_status :
    (process_file_sys counterEnv { block_size := 2 } { open_fails := true } [47] FTW_F
        [1, 2, 3] ⟨0, []⟩).map (fun out => (out.exit_status, out.trace)) =
      some (some 0, []) ∧
    (process_file_sys counterEnv { block_size := 2 } { good_reads := some 1 } [47] FTW_F
        [1, 2, 3] ⟨0, []⟩).map (fun out => (out.exit_status, out.trace)) =
      some (some 0, [Event.read 2, Event.update [1, 2]]) ∧
    (process_file_sys counterEnv { block_size := 2 } { malloc_fails := true } [47] FTW_F
        [1, 2, 3] ⟨0, []⟩).map (fun out => (out.exit_status, out.trace)) =
      some (some 1, []) := by
  decide

/-- Whenever the seek of the header-skip fails, `process_file` still returns, having
fed `sceadan_update` the whole stream from its start. -/
theorem process_file_sys_seek_fails {σ : Type} (E : Env σ) (o : Options)
    (path file : List Nat) (s : Session σ) (hB : 0 < o.block_size) :
    ∃ r, process_file_sys E o { seek_fails := true } path FTW_F file s =
        some (Outcome.returned r) ∧ fed_bytes r.trace = file := by
  obtain ⟨r, hr, hfed⟩ := read_loop_fed_bytes E o path
    (decide (o.opt_json ≠ 0) || decide (o.opt_train ≠ 0)) hB file
    (if o.opt_omit = true then wrap64 (0 + o.block_size) else 0)
    (seed_generator E o path s.rng).2 s.acc
  refine ⟨⟨(seed_generator E o path s.rng).1
          ++ (if o.opt_json ≠ 0 then [Event.dump_json o.opt_json] else [])
          ++ (if o.opt_train ≠ 0 then [Event.dump_nodes o.opt_train] else [])
          ++ (if o.opt_omit = true then [Event.lseek o.block_size] else [])
          ++ r.trace ++ [Event.clear], r.rng, [], r.offset⟩, ?_, ?_⟩
  · unfold process_file_sys
    simp only [ne_eq, not_true_eq_false, if_false, Bool.false_eq_true, and_false, if_true,
      ite_self, read_loop_sys_no_error, hr, Option.map_some']
  · show fed_bytes _ = file
    rw [fed_bytes_process_file_trace]
    exact hfed

/-- C13 at a failing input: header-skip on standard input from a pipe (the path
`-`, `lseek` fails), block-by-block mode with block size 2 and the stream 1 2 3 4.
`process_file` does not end the process: it reads the stream from its start, feeds
all four bytes to `sceadan_update` and prints results with the offsets 2 and 4 for
the blocks that start at 0 and 2. -/
theorem process_file_sys_seek_ignored :
    (process_file_sys counterEnv { block_size := 2, opt_blocks := true, opt_omit := true }
        { seek_fails := true } [45] FTW_F [1, 2, 3, 4] ⟨0, []⟩).map
      (fun out => (out.exit_status, read_sizes out.trace, fed_bytes out.trace,
        output_offsets out.trace)) =
      some (none, [2, 2, 0], [1, 2, 3, 4], [2, 4]) := by
  decide

/-! ## The block size check of `main` -/

/-- For an `int` argument of `-b` the check `block_size<1` on the `size_t` holds
for 0 only. -/
theorem option_b_rejected_iff (n : Int) (m : MainState) (hlo : -2 ^ 31 ≤ n)
    (hhi : n < 2 ^ 31) : (option_b n m).block_size < 1 ↔ n = 0 := by
  simp only [option_b, size_t_of_int]
  omega

/-- C14 at a failing input: for `-b -1` the `size_t` block size is 2^64 - 1, the
check `block_size<1` does not hold, and `main` goes on to open the classifier and to
process the files, where the claim has it report the invalid block size and exit
through `usage`; only `-b 0` is rejected. -/
theorem main_negative_block_size :
    (option_b (-1) { args := [[47]] }).block_size = 18446744073709551615 ∧
      main_after_options (option_b (-1) { args := [[47]] }) =
        [MainAction.sceadan_open, MainAction.sceadan_set_ngram_mode,
          MainAction.process_dir [47], MainAction.exit_with 0] ∧
      main_after_options (option_b 0 { args := [[47]] }) =
        [MainAction.invalid_block_size, MainAction.usage] := by
  decide

/-! ## Order of update and classify calls -/

theorem classify_after_update_append (p : Bool) (a b : List Event) :
    classify_after_update p (a ++ b) =
      (classify_after_update p a && classify_after_update (pending_after p a) b) := by
  induction a generalizing p with
  | nil => simp [classify_after_update, pending_after]
  | cons e a ih =>
    cases e <;> simp [classify_after_update, pending_after, ih, Bool.and_assoc]

theorem pending_after_append (p : Bool) (a b : List Event) :
    pending_after p (a ++ b) = pending_after (pending_after p a) b := by
  induction a generalizing p with
  | nil => simp [pending_after]
  | cons e a ih =>
    cases e <;> simp [pending_after, ih]

theorem classify_after_update_neutral (p : Bool) (l : List Event)
    (h : ∀ e ∈ l, e.is_call = false) :
    classify_after_update p l = true ∧ pending_after p l = p := by
  induction l with
  | nil => exact ⟨rfl, rfl⟩
  | cons e l ih =>
    have he := h e (List.mem_cons_self _ _)
    have ih' := ih (fun e h' => h e (List.mem_cons_of_mem _ h'))
    cases e <;> first
      | (simp only [classify_after_update, pending_after]; exact ih')
      | (simp at he)

theorem classify_after_update_on_boundary {σ : Type} (E : Env σ) (o : Options)
    (path : List Nat) (training : Bool) (offset rd : Nat) (g : σ) (acc : List Nat) :
    ∃ q, ∀ tail, classify_after_update false
        ((on_boundary E o path training offset rd g acc).1 ++ tail) =
      classify_after_update q tail := by
  by_cases h : (((E.random g).1 % 100 : Nat) : Int) < o.opt_percentage
  · rw [on_boundary_accept E o path training offset rd g acc h]
    refine ⟨true, fun tail => ?_⟩
    cases training <;> cases o.opt_preport <;> simp [classify_after_update]
  · rw [on_boundary_reject E o path training offset rd g acc h]
    exact ⟨false, fun tail => by simp [classify_after_update]⟩

theorem read_loop_classify_after_update {σ : Type} (E : Env σ) (o : Options)
    (path : List Nat) (training : Bool) (hB : 0 < o.block_size) (fd : List Nat)
    (offset : Nat) (g : σ) (acc : List Nat) :
    ∃ r, read_loop E o path training (fd.length + 1) fd offset g acc = some r ∧
      ∀ p, (o.opt_blocks = true ∨ p = false ∨ fd ≠ []) →
        classify_after_update p r.trace = true := by
  refine read_loop_induction E o path training
    (fun fd _ _ _ r => ∀ p, (o.opt_blocks = true ∨ p = false ∨ fd ≠ []) →
      classify_after_update p r.trace = true)
    ?_ ?_ (fd.length + 1) fd offset g acc (Nat.lt_succ_self _)
  · intro fd offset g acc h0 p hp
    have hnil : fd = [] := by
      simp only [List.length_take] at h0
      exact List.length_eq_zero.mp (by omega)
    by_cases hb : o.opt_blocks = true
    · have hne : (fd.take o.block_size).length ≠ o.block_size := by omega
      simp only [iteration_block_short E o path training offset _ g acc hb hne, h0]
      simp [classify_after_update]
    · have hb' : o.opt_blocks = false := by simpa using hb
      have hpf : p = false := by
        rcases hp with h | h | h
        · exact absurd h hb
        · exact h
        · exact absurd hnil h
      subst hpf
      obtain ⟨q, hq⟩ := classify_after_update_on_boundary E o path training offset 0 g acc
      simp only [iteration_whole_end E o path training offset _ g acc hb' h0]
      have := hq []
      simp only [List.append_nil] at this
      simp only [classify_after_update, this]
  · intro fd offset g acc r h0 ih p _
    have hpos : 0 < (fd.take o.block_size).length := by omega
    by_cases hb : o.opt_blocks = true
    · by_cases hfull : (fd.take o.block_size).length = o.block_size
      · obtain ⟨q, hq⟩ := classify_after_update_on_boundary E o path training offset
          (fd.take o.block_size).length g (acc ++ fd.take o.block_size)
        simp only [iteration_block_full E o path training offset _ g acc hb hB hfull,
          List.cons_append, classify_after_update, hq]
        exact ih q (Or.inl hb)
      · simp only [iteration_block_short E o path training offset _ g acc hb hfull,
          if_pos hpos, List.cons_append, List.nil_append, classify_after_update]
        exact ih false (Or.inl hb)
    · have hb' : o.opt_blocks = false := by simpa using hb
      simp only [iteration_whole_data E o path training offset _ g acc hb' h0,
        List.cons_append, List.nil_append, classify_after_update]
      exact ih false (Or.inr (Or.inl rfl))

/-- A property of the calls made before the loop. -/
theorem forall_preamble {σ : Type} (Q : Event → Prop)
    (hrandom : ∀ v, Q (Event.random v)) (hsrandom : ∀ v, Q (Event.srandom v))
    (hjson : ∀ c, Q (Event.dump_json c)) (hnodes : ∀ c, Q (Event.dump_nodes c))
    (hseek : ∀ n, Q (Event.lseek n))
    (E : Env σ) (o : Options) (path : List Nat) (g : σ) :
    ∀ e ∈ ((seed_generator E o path g).1
          ++ (if o.opt_json ≠ 0 then [Event.dump_json o.opt_json] else [])
          ++ (if o.opt_train ≠ 0 then [Event.dump_nodes o.opt_train] else [])
          ++ (if o.opt_omit = true then [Event.lseek o.block_size] else [])), Q e := by
  intro e he
  simp only [List.mem_append] at he
  rcases he with ((he | he) | he) | he
  · rcases seed_generator_events E o path g e he with ⟨v, rfl⟩ | ⟨v, rfl⟩
    · exact hrandom v
    · exact hsrandom v
  · by_cases hj : o.opt_json = 0
    · simp [hj] at he
    · simp only [ne_eq, hj, not_false_eq_true, if_true, List.mem_singleton] at he
      rw [he]
      exact hjson _
  · by_cases ht : o.opt_train = 0
    · simp [ht] at he
    · simp only [ne_eq, ht, not_false_eq_true, if_true, List.mem_singleton] at he
      rw [he]
      exact hnodes _
  · by_cases hx : o.opt_omit = true
    · simp only [hx, if_true, List.mem_singleton] at he
      rw [he]
      exact hseek _
    · simp [hx] at he

theorem replay_classified_append (acc : List Nat) (a b : List Event) :
    replay_classified acc (a ++ b) =
      replay_classified acc a ++ replay_classified (replay_acc acc a) b := by
  induction a generalizing acc with
  | nil => simp [replay_classified, replay_acc]
  | cons e a ih =>
    cases e <;> simp [replay_classified, replay_acc, ih]

theorem replay_acc_append (acc : List Nat) (a b : List Event) :
    replay_acc acc (a ++ b) = replay_acc (replay_acc acc a) b := by
  induction a generalizing acc with
  | nil => simp [replay_acc]
  | cons e a ih =>
    cases e <;> simp [replay_acc, ih]

theorem replay_neutral (acc : List Nat) (l : List Event)
    (h : ∀ e ∈ l, e.is_call = false ∧ e ≠ Event.clear) :
    replay_classified acc l = [] ∧ replay_acc acc l = acc := by
  induction l with
  | nil => exact ⟨rfl, rfl⟩
  | cons e l ih =>
    have he := h e (List.mem_cons_self _ _)
    have ih' := ih (fun e h' => h e (List.mem_cons_of_mem _ h'))
    cases e <;> first
      | (simp only [replay_classified, replay_acc]; exact ih')
      | (simp at he)

theorem replay_on_boundary {σ : Type} (E : Env σ) (o : Options) (path : List Nat)
    (training : Bool) (offset rd : Nat) (g : σ) (acc : List Nat) :
    classified (on_boundary E o path training offset rd g acc).1 =
        replay_classified acc (on_boundary E o path training offset rd g acc).1 ∧
      (on_boundary E o path training offset rd g acc).2.2 =
        replay_acc acc (on_boundary E o path training offset rd g acc).1 := by
  by_cases h : (((E.random g).1 % 100 : Nat) : Int) < o.opt_percentage
  · rw [on_boundary_accept E o path training offset rd g acc h]
    cases training <;> cases o.opt_preport <;>
      simp [classified, replay_classified, replay_acc]
  · rw [on_boundary_reject E o path training offset rd g acc h]
    simp [classified, replay_classified, replay_acc]

theorem replay_iteration {σ : Type} (E : Env σ) (o : Options) (path : List Nat)
    (training : Bool) (offset : Nat) (buf : List Nat) (g : σ) (acc : List Nat) :
    classified (iteration E o path training offset buf g acc).1 =
        replay_classified acc (iteration E o path training offset buf g acc).1 ∧
      (iteration E o path training offset buf g acc).2.2 =
        replay_acc acc (iteration E o path training offset buf g acc).1 := by
  have hb := replay_on_boundary E o path training offset buf.length g
    (if 0 < buf.length then acc ++ buf else acc)
  unfold iteration
  by_cases hc : ((o.opt_blocks && decide (buf.length = o.block_size))
      || (!o.opt_blocks && decide (buf.length = 0))) = true
  · simp only [hc, if_true]
    by_cases h0 : 0 < buf.length
    · simp only [h0, if_true] at hb ⊢
      simp only [List.cons_append, List.nil_append, classified, List.filterMap_cons,
        Event.classify_acc, replay_classified, replay_acc]
      exact hb
    · simp only [h0, if_false] at hb ⊢
      simp only [List.cons_append, List.nil_append, classified, List.filterMap_cons,
        Event.classify_acc, replay_classified, replay_acc]
      exact hb
  · simp only [hc]
    by_cases h0 : 0 < buf.length <;>
      simp [h0, classified, replay_classified, replay_acc]

theorem read_loop_replay {σ : Type} (E : Env σ) (o : Options) (path : List Nat)
    (training : Bool) (fd : List Nat) (offset : Nat) (g : σ) (acc : List Nat) :
    ∃ r, read_loop E o path training (fd.length + 1) fd offset g acc = some r ∧
      classified r.trace = replay_classified acc r.trace ∧
      r.acc = replay_acc acc r.trace := by
  refine read_loop_induction E o path training
    (fun _ _ _ acc r => classified r.trace = replay_classified acc r.trace ∧
      r.acc = replay_acc acc r.trace)
    ?_ ?_ (fd.length + 1) fd offset g acc (Nat.lt_succ_self _)
  · intro fd offset g acc _
    exact replay_iteration E o path training offset _ g acc
  · intro fd offset g acc r _ ih
    obtain ⟨h1, h2⟩ := replay_iteration E o path training offset (fd.take o.block_size) g acc
    obtain ⟨ih1, ih2⟩ := ih
    refine ⟨?_, ?_⟩
    · show classified (_ ++ r.trace) = replay_classified acc (_ ++ r.trace)
      rw [classified_append, replay_classified_append, h1, ih1, ← h2]
    · show r.acc = replay_acc acc (_ ++ r.trace)
      rw [replay_acc_append, ← h2, ih2]

theorem process_file_call_order {σ : Type} (E : Env σ) (o : Options) (path : List Nat)
    (typeflag : Nat) (file : List Nat) (s : Session σ) (hB : 0 < o.block_size) :
    ∃ r, process_file E o path typeflag file s = some r ∧
      (∀ p, (o.opt_blocks = true ∨ (typeflag = FTW_F →
          (if o.opt_omit = true then file.drop o.block_size else file) ≠ [])) →
        classify_after_update p r.trace = true) ∧
      classified r.trace = replay_classified s.acc r.trace ∧
      r.acc = replay_acc s.acc r.trace := by
  by_cases ht : typeflag = FTW_F
  · subst ht
    obtain ⟨r, hr, horder⟩ := read_loop_classify_after_update E o path
      (decide (o.opt_json ≠ 0) || decide (o.opt_train ≠ 0)) hB
      (if o.opt_omit = true then file.drop o.block_size else file)
      (if o.opt_omit = true then wrap64 (0 + o.block_size) else 0)
      (seed_generator E o path s.rng).2 s.acc
    obtain ⟨r', hr', hcl, hacc⟩ := read_loop_replay E o path
      (decide (o.opt_json ≠ 0) || decide (o.opt_train ≠ 0))
      (if o.opt_omit = true then file.drop o.block_size else file)
      (if o.opt_omit = true then wrap64 (0 + o.block_size) else 0)
      (seed_generator E o path s.rng).2 s.acc
    have he : r' = r := Option.some.inj (hr'.symm.trans hr)
    subst he
    have hcalls := forall_preamble (fun e => e.is_call = false)
      (fun _ => rfl) (fun _ => rfl) (fun _ => rfl) (fun _ => rfl) (fun _ => rfl)
      E o path s.rng
    have hneutral := forall_preamble (fun e => e.is_call = false ∧ e ≠ Event.clear)
      (fun _ => ⟨rfl, by simp⟩) (fun _ => ⟨rfl, by simp⟩) (fun _ => ⟨rfl, by simp⟩)
      (fun _ => ⟨rfl, by simp⟩) (fun _ => ⟨rfl, by simp⟩) E o path s.rng
    refine ⟨_, process_file_of_loop E o path file s r' hr, ?_, ?_, ?_⟩
    · intro p hp
      have hp' : o.opt_blocks = true ∨ p = false ∨
          (if o.opt_omit = true then file.drop o.block_size else file) ≠ [] := by
        rcases hp with h | h
        · exact Or.inl h
        · exact Or.inr (Or.inr (h rfl))
      obtain ⟨h1, h2⟩ := classify_after_update_neutral p _ hcalls
      show classify_after_update p (_ ++ r'.trace ++ [Event.clear]) = true
      rw [List.append_assoc, classify_after_update_append, h1, h2,
        classify_after_update_append, horder p hp']
      simp [classify_after_update]
    · obtain ⟨h1, h2⟩ := replay_neutral s.acc _ hneutral
      show List.filterMap Event.classify_acc _ = replay_classified s.acc (_ ++ r'.trace ++ [Event.clear])
      rw [filterMap_process_file_trace Event.classify_acc (fun _ => rfl) (fun _ => rfl)
        (fun _ => rfl) (fun _ => rfl) (fun _ => rfl) rfl, List.append_assoc,
        replay_classified_append, h1, h2, replay_classified_append]
      simp only [List.nil_append, replay_classified, List.append_nil]
      exact hcl
    · obtain ⟨_, h2⟩ := replay_neutral s.acc _ hneutral
      show [] = replay_acc s.acc (_ ++ r'.trace ++ [Event.clear])
      rw [List.append_assoc, replay_acc_append, h2, replay_acc_append]
      simp [replay_acc]
  · refine ⟨⟨[], s.rng, s.acc, 0⟩, ?_, fun _ _ => rfl, rfl, rfl⟩
    simp only [process_file, ne_eq, ht, not_false_eq_true, if_true]

theorem process_files_call_order_from {σ : Type} (E : Env σ) (o : Options)
    (hB : 0 < o.block_size) (tasks : List (List Nat × Nat × List Nat))
    (hdata : o.opt_blocks = true ∨ ∀ t ∈ tasks, t.2.1 = FTW_F →
      (if o.opt_omit = true then t.2.2.drop o.block_size else t.2.2) ≠ [])
    (p : Bool) (s : Session σ) :
    ∃ runs, process_files E o tasks s = some runs ∧
      classify_after_update p (total_trace runs) = true ∧
      classified (total_trace runs) = replay_classified s.acc (total_trace runs) := by
  induction tasks generalizing p s with
  | nil => exact ⟨[], rfl, rfl, rfl⟩
  | cons t rest ih =>
    obtain ⟨path, typeflag, file⟩ := t
    obtain ⟨r, hr, horder, hcl, hacc⟩ := process_file_call_order E o path typeflag file s hB
    have hrest : o.opt_blocks = true ∨ ∀ t ∈ rest, t.2.1 = FTW_F →
        (if o.opt_omit = true then t.2.2.drop o.block_size else t.2.2) ≠ [] := by
      rcases hdata with h | h
      · exact Or.inl h
      · exact Or.inr (fun t ht => h t (List.mem_cons_of_mem _ ht))
    have hthis : o.opt_blocks = true ∨ (typeflag = FTW_F →
        (if o.opt_omit = true then file.drop o.block_size else file) ≠ []) := by
      rcases hdata with h | h
      · exact Or.inl h
      · exact Or.inr (h (path, typeflag, file) (List.mem_cons_self _ _))
    obtain ⟨rs, hrs, hord, hrep⟩ := ih hrest (pending_after p r.trace) ⟨r.rng, r.acc⟩
    refine ⟨(s, r) :: rs, ?_, ?_, ?_⟩
    · simp only [process_files, hr, hrs]
    · show classify_after_update p (r.trace ++ total_trace rs) = true
      rw [classify_after_update_append, horder p hthis, hord]
      rfl
    · show classified (r.trace ++ total_trace rs) =
        replay_classified s.acc (r.trace ++ total_trace rs)
      rw [classified_append, replay_classified_append, hcl, hrep, ← hacc]

/-- C18 (amended): across every sequence of File Tasks processed on one session
(any block size B > 0, either mode, any percentage), provided that in whole-file
mode every regular file has at least one byte to read (it is not empty and, with
header-skip, longer than one block), every call returns, the driver never calls
`sceadan_classify` twice without a `sceadan_update` call in between, and every
classify call sees exactly the bytes fed since the previous classify or
`sceadan_clear`, so no update ever follows a classify without the state having been
reset in between. -/
theorem process_files_call_order {σ : Type} (E : Env σ) (o : Options)
    (tasks : List (List Nat × Nat × List Nat)) (s : Session σ) (hB : 0 < o.block_size)
    (hdata : o.opt_blocks = true ∨ ∀ t ∈ tasks, t.2.1 = FTW_F →
      (if o.opt_omit = true then t.2.2.drop o.block_size else t.2.2) ≠ []) :
    ∃ runs, process_files E o tasks s = some runs ∧
      classify_after_update false (total_trace runs) = true ∧
      classified (total_trace runs) = replay_classified s.acc (total_trace runs) :=
  process_files_call_order_from E o hB tasks hdata false s

/-- Witness for C18: two non-empty regular files in whole-file mode. -/
theorem process_files_call_order_witness :
    ∃ runs, process_files counterEnv { block_size := 2 }
        [([47, 97], FTW_F, [1, 2, 3]), ([47, 98], FTW_F, [4])] ⟨0, []⟩ = some runs ∧
      classify_after_update false (total_trace runs) = true ∧
      classified (total_trace runs) =
        replay_classified (⟨0, []⟩ : Session Nat).acc (total_trace runs) :=
  process_files_call_order counterEnv { block_size := 2 }
    [([47, 97], FTW_F, [1, 2, 3]), ([47, 98], FTW_F, [4])] ⟨0, []⟩ (by decide)
    (Or.inr (by decide))

/-- C18 as stated fails: in whole-file mode at percentage 100, a 1-byte file followed
by an empty file gives two `sceadan_classify` calls with no `sceadan_update` call in
between, since nothing is read from the empty file before it is classified. -/
theorem process_files_call_order_counterexample :
    (process_files counterEnv { block_size := 2 }
        [([47, 97], FTW_F, [1]), ([47, 98], FTW_F, [])] ⟨0, []⟩).map
      (fun runs => (calls (total_trace runs), classify_after_update false (total_trace runs))) =
      some ([Event.update [1], Event.boundary 0 true, Event.classify [1] 1,
        Event.boundary 1 true, Event.classify [] 0], false) := by
  decide

end Sceadan
